import Mathlib

/-!
# mcp-imap: resource router and mail-session adapter

A shallow embedding of `pkg/mcpimap` (`errors.go`, `imap.go`, `mcp.go`).

* Go strings are Lean strings, read rune by rune as `List Char`.
* Go slices are lists; a nil slice and an empty slice are both `[]`.
* A Go `error` is `Option GoError`, `none` being `nil`.
* A function that can panic returns an `Outcome`.
* The IMAP server is an oracle (`Network`, `Client`) that answers every call;
  each call the adapter makes is appended to `Network.events`.
-/

universe u

namespace McpImap

/-! ## Errors (`errors.go`, package `errors`, `io`) -/

/-- Go error values that occur in the package: `io.EOF`, a formatted message
(`fmt.Errorf`, `errors.New`), the package's `operationalError`, and the value
built by `errors.Join`. -/
inductive GoError where
  | eof
  | text (msg : String)
  | operational (operation : String) (problem : GoError)
  | join (errs : List GoError)

/-- Go's `errors.Join`: nil arguments are dropped; the result is nil when no
argument is left and one wrapping error otherwise. -/
def errorsJoin (errs : List (Option GoError)) : Option GoError :=
  match errs.reduceOption with
  | [] => none
  | e :: es => some (GoError.join (e :: es))

/-- The result of running Go code that may panic. -/
inductive Outcome (α : Type u) where
  | returned (a : α)
  | panicked (msg : String)

/-! ## Data model (`mcp.go`) -/

/-- Go's `time.Time`, kept abstract as an instant. -/
structure Time where
  unix : Int

/-- The `EmailSummary` of `mcp.go`. -/
structure EmailSummary where
  ID : String
  Subject : String
  Received : Time
  From : List String

/-- The `EmailHead` of `mcp.go`. -/
structure EmailHead where
  ID : String
  Subject : String
  Received : Time
  From : List String

/-- The `EmailBody` of `mcp.go`: a MIME type and the raw payload. -/
structure EmailBody where
  MimeType : String
  Data : List UInt8

/-- The `EmailBodies` of `mcp.go`. -/
abbrev EmailBodies := List EmailBody

/-! ## The IMAP and mail libraries, as data -/

/-- The `imap.Address` fields the envelope carries. -/
structure Address where
  Name : String
  Mailbox : String
  Host : String

/-- The `imap.Envelope` fields the adapter reads. -/
structure Envelope where
  Date : Time
  Subject : String
  From : List Address

/-- The header of a `mail.Part`: an `*mail.InlineHeader`, with the answer of
its `ContentType()`, or another header type (`*mail.AttachmentHeader`). -/
inductive PartHeader where
  | inline (contentType : Except GoError String)
  | attachment

/-- A `mail.Part`: its header and what `io.ReadAll` gives on its body. -/
structure Part where
  Header : PartHeader
  Body : Except GoError (List UInt8)

/-- A `mail.Reader`: the successive answers of `NextPart`; after the last
one `NextPart` answers `io.EOF`. -/
abbrev MailReader := List (Except GoError Part)

/-- An `imap.LiteralReader` holding a message: the answer of
`mail.CreateReader` on it. -/
structure LiteralReader where
  createReader : Except GoError MailReader

/-- The items of one fetched message (`imapclient.FetchItemData`). -/
inductive FetchItemData where
  | envelope (env : Envelope)
  | bodySection (literal : LiteralReader)
  | other

/-- One message of a fetch response (`imapclient.FetchMessageData`). -/
structure FetchMessageData where
  SeqNum : Nat
  items : List FetchItemData

/-- An `imap.UIDSet` of one number, as it is sent to the server: a number
other than zero stands for itself, and zero stands for `*`, the largest
unique identifier of the mailbox. -/
inductive UIDSet where
  | uid (n : Nat)
  | star
  deriving DecidableEq

/-- The `imap.UIDSetNum(uid)`: the set of the one number `uid`; the number 0
is the library's value for `*`. -/
def UIDSetNum (uid : Nat) : UIDSet :=
  if uid = 0 then .star else .uid uid

/-- An `*imapclient.Client`: what the server answers on this connection. -/
structure Client where
  conn : Nat
  authenticate : String → String → String → Option GoError
  selectInbox : Option GoError
  search : Except GoError (List Nat)
  fetchSeq : List Nat → List FetchMessageData
  fetchUID : UIDSet → List FetchMessageData

/-- A call made to the network. -/
inductive NetEvent where
  | dial (addr : String)
  | authenticate (conn : Nat) (identity username password : String)
  | select (conn : Nat) (mailbox : String) (readOnly : Bool)
  | search (conn : Nat)
  | fetchSeq (conn : Nat) (seqs : List Nat)
  | fetchUID (conn : Nat) (set : UIDSet)
  deriving DecidableEq

/-- The network: how `imapclient.DialTLS` answers (given the address and the
calls made so far) and the calls made so far. -/
structure Network where
  dialTLS : String → List NetEvent → Except GoError Client
  events : List NetEvent

/-- Records one call. -/
def Network.record (net : Network) (ev : NetEvent) : Network :=
  { net with events := net.events ++ [ev] }

/-- The number of dials among recorded calls. -/
def dialCount : List NetEvent → Nat
  | [] => 0
  | NetEvent.dial _ :: rest => dialCount rest + 1
  | _ :: rest => dialCount rest

/-! ## `fmt.Sscanf(id, "%d", &uid)` with `uid` of kind `uint32` -/

/-- The scanner's rune limit (`hugeWid = 1 << 30`): `ReadRune` answers EOF
once this many runes were read. -/
def hugeWid : Nat := 1073741824

/-- The `isSpace` of `fmt/scan.go` (its `space` table). -/
def isSpace (r : Char) : Bool :=
  let x := r.toNat
  (0x0009 ≤ x && x ≤ 0x000d) || x == 0x0020 || x == 0x0085 || x == 0x00a0 ||
  x == 0x1680 || (0x2000 ≤ x && x ≤ 0x200a) || (0x2028 ≤ x && x ≤ 0x2029) ||
  x == 0x202f || x == 0x205f || x == 0x3000

/-- The `ss.SkipSpace` of a scanner made by `Sscanf` (`nlIsSpace` false): a
carriage return before a newline is skipped, a newline is an error, other
space is skipped, and the first rune that is no space is left unread. -/
def skipSpace : List Char → Except GoError (List Char)
  | [] => .ok []
  | r :: rest =>
    if r = '\r' ∧ rest.head? = some '\n' then skipSpace rest
    else if r = '\n' then .error (.text "unexpected newline")
    else if isSpace r then skipSpace rest
    else .ok (r :: rest)

/-- The loop `for s.accept(digits) {}` of `scanNumber`: the run of decimal
digits read into the token, and the input left. -/
def acceptDigits : List Char → List Char × List Char
  | [] => ([], [])
  | c :: cs =>
    if c.isDigit then ((acceptDigits cs).1.cons c, (acceptDigits cs).2)
    else ([], c :: cs)

/-- The `ss.scanNumber(decimalDigits, false)`: at least one digit, then all
digits that follow. -/
def scanNumber : List Char → Except GoError (List Char × List Char)
  | [] => .error .eof
  | c :: cs =>
    if c.isDigit then .ok (acceptDigits (c :: cs))
    else .error (.text "expected integer")

/-- The largest 64-bit unsigned number, `1<<64 - 1`. -/
def maxUint64 : Nat := 18446744073709551615

/-- The loop of `strconv.ParseUint(tok, 10, 64)` over the token: a character
that is no digit is a syntax error, a value past `maxUint64` a range error. -/
def parseUintLoop : List Char → Nat → Except GoError Nat
  | [], n => .ok n
  | c :: cs, n =>
    if ¬ c.isDigit then .error (.text "invalid syntax")
    else if n ≥ maxUint64 / 10 + 1 then .error (.text "value out of range")
    else
      let n1 := n * 10 + (c.toNat - 48)
      if n1 > maxUint64 then .error (.text "value out of range")
      else parseUintLoop cs n1

/-- Go's `strconv.ParseUint(tok, 10, 64)`. -/
def parseUint (tok : List Char) : Except GoError Nat :=
  if tok = [] then .error (.text "invalid syntax") else parseUintLoop tok 0

/-- The `ss.scanUint('d', 32)`: skip space, require input, read the digits,
parse them as a 64-bit number and check that it fits 32 bits
(`x := (i << 32) >> 32; x != i` is an overflow). -/
def scanUint (input : List Char) : Except GoError (Nat × List Char) :=
  match skipSpace input with
  | .error err => .error err
  | .ok [] => .error .eof
  | .ok (c :: cs) =>
    match scanNumber (c :: cs) with
    | .error err => .error err
    | .ok (tok, rest) =>
      match parseUint tok with
      | .error err => .error err
      | .ok i =>
        let x := (i * 2 ^ 32 % 2 ^ 64) / 2 ^ 32
        if x ≠ i then .error (.text "unsigned integer overflow")
        else .ok (i, rest)

/-- The result of `fmt.Sscanf(str, "%d", &uid)`: the value stored in `uid`
(left at zero on failure), the count of items scanned and the error. -/
structure ScanResult where
  uid : Nat
  count : Nat
  err : Option GoError

/-- The `fmt.Sscanf(str, "%d", &uid)` of `RetrieveEmailHead` and
`RetrieveEmailBody`. The scanner reads at most `hugeWid` runes. The format is
the single verb `%d`: `doScanf` skips space before the verb, the number is
scanned into `uid`, and the input after the number is not looked at. -/
def Sscanf (str : String) : ScanResult :=
  match skipSpace (str.toList.take hugeWid) with
  | .error err => { uid := 0, count := 0, err := some err }
  | .ok input =>
    match scanUint input with
    | .error err => { uid := 0, count := 0, err := some err }
    | .ok (i, _) => { uid := i, count := 1, err := none }

/-! ## The mail-session adapter (`imap.go`) -/

/-- The `EmersionImap` adapter: its configuration and the session handle,
nil (`none`) until a session was dialled. -/
structure EmersionImap where
  mailbox : String
  host : String
  password : String
  session : Option Client

/-- The `NewEmersionImap`: no session yet. -/
def NewEmersionImap (mailbox host password : String) : EmersionImap :=
  { mailbox := mailbox, host := host, password := password, session := none }

/-- The `EmersionImap.ensureSession`: dial `host:993`, keep the client as the
session, authenticate with the mailbox as identity and user name, select
INBOX read-only. -/
def ensureSession (e : EmersionImap) (net : Network) :
    Option GoError × EmersionImap × Network :=
  let net1 := net.record (.dial (e.host ++ ":993"))
  match net.dialTLS (e.host ++ ":993") net.events with
  | .error err => (some (.operational "dial" err), e, net1)
  | .ok client =>
    let e1 := { e with session := some client }
    let net2 := net1.record (.authenticate client.conn e.mailbox e.mailbox e.password)
    match client.authenticate e.mailbox e.mailbox e.password with
    | some err =>
      (some (.operational ("authentication (" ++ e.mailbox ++ "@" ++ e.host ++ ") error") err),
        e1, net2)
    | none =>
      let net3 := net2.record (.select client.conn "INBOX" true)
      match client.selectInbox with
      | some err => (some (.operational "select INBOX" err), e1, net3)
      | none => (none, e1, net3)

/-- The part loop of `consumeEmail`: stop at `io.EOF`, return the parts read
so far with any other error, append one body per inline part, skip every
other part. -/
def consumeParts : MailReader → EmailBodies → EmailBodies × Option GoError
  | [], data => (data, none)
  | .error .eof :: _, data => (data, none)
  | .error err :: _, data => (data, some err)
  | .ok p :: rest, data =>
    match p.Header with
    | .inline (.error err) =>
      (data, some (.operational "extracting content header" err))
    | .inline (.ok contentType) =>
      match p.Body with
      | .error err => (data, some (.operational "reading body" err))
      | .ok b => consumeParts rest (data ++ [{ MimeType := contentType, Data := b }])
    | .attachment => consumeParts rest data

/-- The `EmersionImap.consumeEmail`. -/
def consumeEmail (data : EmailBodies) (bodySectionData : LiteralReader) :
    EmailBodies × Option GoError :=
  match bodySectionData.createReader with
  | .error err => ([], some err)
  | .ok mr => consumeParts mr data

/-- The inner loop of `RetrieveEmailBody` over the items of one message:
`.error err` is the early `return nil, err`. -/
def retrieveItems : List FetchItemData → EmailBodies → Except GoError EmailBodies
  | [], output => .ok output
  | .bodySection literal :: rest, output =>
    match consumeEmail output literal with
    | (_, some err) => .error err
    | (output1, none) => retrieveItems rest output1
  | _ :: rest, output => retrieveItems rest output

/-- The outer loop of `RetrieveEmailBody` over the fetched messages. -/
def retrieveMessages : List FetchMessageData → EmailBodies → Except GoError EmailBodies
  | [], output => .ok output
  | fetchedNext :: rest, output =>
    match retrieveItems fetchedNext.items output with
    | .error err => .error err
    | .ok output1 => retrieveMessages rest output1

/-- The `EmersionImap.RetrieveEmailBody`. -/
def RetrieveEmailBody (e : EmersionImap) (net : Network) (id : String) :
    Outcome (EmailBodies × Option GoError) × EmersionImap × Network :=
  let scanned := Sscanf id
  if scanned.err.isSome ∨ scanned.count ≠ 1 then
    (.returned ([], some (.text ("invalid email id: " ++ id))), e, net)
  else
    match ensureSession e net with
    | (some err, e1, net1) => (.returned ([], some err), e1, net1)
    | (none, e1, net1) =>
      match e1.session with
      | none => (.panicked "invalid memory address or nil pointer dereference", e1, net1)
      | some session =>
        let net2 := net1.record (.fetchUID session.conn (UIDSetNum scanned.uid))
        match retrieveMessages (session.fetchUID (UIDSetNum scanned.uid)) [] with
        | .error err => (.returned ([], some err), e1, net2)
        | .ok output => (.returned (output, none), e1, net2)

/-- The `EmersionImap.RetrieveEmailHead`. -/
def RetrieveEmailHead (e : EmersionImap) (net : Network) (id : String) :
    Outcome (EmailHead × Option GoError) × EmersionImap × Network :=
  let emptyHead : EmailHead := { ID := "", Subject := "", Received := ⟨0⟩, From := [] }
  match ensureSession e net with
  | (some err, e1, net1) => (.returned (emptyHead, some err), e1, net1)
  | (none, e1, net1) =>
    let scanned := Sscanf id
    if scanned.err.isSome ∨ scanned.count ≠ 1 then
      (.returned (emptyHead, some (.text ("invalid email id: " ++ id))), e1, net1)
    else (.returned (emptyHead, none), e1, net1)

/-- The struct literal that `ListEmails` builds for one envelope item: the
sequence number in decimal as ID, and the display name of the first sender,
`packet.Envelope.From[0].Name`, an index expression that panics on an empty
sender list. -/
def summaryOfEnvelope (seqNum : Nat) (env : Envelope) : Outcome EmailSummary :=
  match env.From with
  | [] => .panicked "runtime error: index out of range [0] with length 0"
  | first :: _ =>
    .returned
      { ID := Nat.repr seqNum, Subject := env.Subject, Received := env.Date,
        From := [first.Name] }

/-- Go's `iter.Seq2[EmailSummary, error]`: a function that pushes pairs into
`yield`, which answers whether to go on. The consumer's loop state is passed
through `yield`. -/
def Seq2 : Type 1 :=
  (σ : Type) → (EmailSummary → Option GoError → σ → σ × Bool) → σ → Outcome σ

/-- A sequence that yields the given pairs in order, stopping early when
`yield` answers false. -/
def Seq2.ofList : List (EmailSummary × Option GoError) → Seq2
  | [], _, _, s => .returned s
  | (email, err) :: rest, σ, yield, s =>
    if (yield email err s).2 then Seq2.ofList rest σ yield (yield email err s).1
    else .returned (yield email err s).1

/-- The inner loop of the sequence returned by `ListEmails`, over the items
of one message; the flag of the result is false after the consumer stopped
the iteration. -/
def listItems (seqNum : Nat) (σ : Type) (yield : EmailSummary → Option GoError → σ → σ × Bool) :
    List FetchItemData → σ → Outcome (σ × Bool)
  | [], s => .returned (s, true)
  | .envelope env :: rest, s =>
    match summaryOfEnvelope seqNum env with
    | .panicked msg => .panicked msg
    | .returned summary =>
      if (yield summary none s).2 then listItems seqNum σ yield rest (yield summary none s).1
      else .returned ((yield summary none s).1, false)
  | _ :: rest, s => listItems seqNum σ yield rest s

/-- The outer loop of the sequence returned by `ListEmails`, over the
messages of the fetch response. -/
def listMessages (σ : Type) (yield : EmailSummary → Option GoError → σ → σ × Bool) :
    List FetchMessageData → σ → Outcome σ
  | [], s => .returned s
  | group :: rest, s =>
    match listItems group.SeqNum σ yield group.items s with
    | .panicked msg => .panicked msg
    | .returned (s1, true) => listMessages σ yield rest s1
    | .returned (s1, false) => .returned s1

/-- What `ListEmails` returns: `(nil, err)` or `(emails, nil)`. -/
inductive Listing where
  | failed (err : GoError)
  | sequence (emails : Seq2)

/-- The `EmersionImap.ListEmails`. -/
def ListEmails (e : EmersionImap) (net : Network) :
    Outcome Listing × EmersionImap × Network :=
  match ensureSession e net with
  | (some err, e1, net1) => (.returned (.failed err), e1, net1)
  | (none, e1, net1) =>
    match e1.session with
    | none => (.panicked "invalid memory address or nil pointer dereference", e1, net1)
    | some session =>
      let net2 := net1.record (.search session.conn)
      match session.search with
      | .error err => (.returned (.failed (.operational "search" err)), e1, net2)
      | .ok found =>
        let net3 := net2.record (.fetchSeq session.conn found)
        (.returned (.sequence (fun σ yield s => listMessages σ yield (session.fetchSeq found) s)),
          e1, net3)

/-! ## URI templates (`github.com/yosida95/uritemplate/v3`)

The package's templates consist of literal text and simple expressions of one
variable, `{name}`. The library compiles a template to a program that
matches the whole input: a literal rune matches itself; a simple expression
captures zero or more units, each an unreserved rune or a percent sign
followed by two hexadecimal digits, the longer capture being tried first.
`Match` returns nil when the input does not match and otherwise the captures,
percent-decoded. -/

/-- A part of a parsed template: a literal rune or a simple expression. -/
inductive TemplatePart where
  | rune (r : Char)
  | variable (name : String)

/-- A parsed `uritemplate.Template`. -/
structure Template where
  parts : List TemplatePart

/-- The template parser, for literals and simple expressions: the first
argument holds the variable name read so far while inside braces. -/
def parseTemplate : Option (List Char) → List Char → Option (List TemplatePart)
  | none, [] => some []
  | some _, [] => none
  | none, c :: cs =>
    if c = '{' then parseTemplate (some []) cs
    else if c = '}' then none
    else (parseTemplate none cs).map (fun ps => TemplatePart.rune c :: ps)
  | some name, c :: cs =>
    if c = '}' then
      if name = [] then none
      else (parseTemplate none cs).map (fun ps => TemplatePart.variable (String.mk name) :: ps)
    else parseTemplate (some (name ++ [c])) cs

/-- The `uritemplate.MustNew`: panics when the template does not parse. -/
def MustNew (template : String) : Outcome Template :=
  match parseTemplate none template.toList with
  | none => .panicked ("uritemplate: invalid template " ++ template)
  | some ps => .returned { parts := ps }

/-- The unreserved runes of RFC 6570 (the library's `rangeUnreserved`). -/
def isUnreserved (r : Char) : Bool :=
  let x := r.toNat
  (0x2D ≤ x && x ≤ 0x2E) || (0x30 ≤ x && x ≤ 0x39) || (0x41 ≤ x && x ≤ 0x5A) ||
  x == 0x5F || (0x61 ≤ x && x ≤ 0x7A) || x == 0x7E

/-- The runes of `unicode.ASCII_Hex_Digit`. -/
def isHexDigit (r : Char) : Bool :=
  let x := r.toNat
  (0x30 ≤ x && x ≤ 0x39) || (0x41 ≤ x && x ≤ 0x46) || (0x61 ≤ x && x ≤ 0x66)

/-- Where the matcher stands inside a captured value: between units, after a
percent sign, or after a percent sign and one hexadecimal digit. -/
inductive PctState where
  | unit
  | pct
  | pctHex

/-- The captures of a match: variable names with the raw text captured. -/
abbrev Captures := List (String × List Char)

/-- Matches the value of a simple expression and then the rest of the
template, `k`, which is given the captured text and the input left. -/
def matchValue (k : List Char → List Char → Option Captures) :
    PctState → List Char → List Char → Option Captures
  | .unit, acc, [] => k acc []
  | .unit, acc, c :: cs =>
    let longer :=
      if isUnreserved c then matchValue k .unit (acc ++ [c]) cs
      else if c = '%' then matchValue k .pct (acc ++ [c]) cs
      else none
    match longer with
    | some caps => some caps
    | none => k acc (c :: cs)
  | .pct, _, [] => none
  | .pct, acc, c :: cs =>
    if isHexDigit c then matchValue k .pctHex (acc ++ [c]) cs else none
  | .pctHex, _, [] => none
  | .pctHex, acc, c :: cs =>
    if isHexDigit c then matchValue k .unit (acc ++ [c]) cs else none

/-- Matches the whole input against the parts of a template. -/
def matchParts : List TemplatePart → List Char → Option Captures
  | [], [] => some []
  | [], _ :: _ => none
  | .rune _ :: _, [] => none
  | .rune r :: ps, c :: cs => if c = r then matchParts ps cs else none
  | .variable name :: ps, input =>
    matchValue (fun raw rest => (matchParts ps rest).map (fun caps => (name, raw) :: caps))
      .unit [] input

/-- The value of a hexadecimal digit (the library's `unhex`). -/
def unhex (c : Char) : Nat :=
  let x := c.toNat
  if 0x30 ≤ x ∧ x ≤ 0x39 then x - 0x30
  else if 0x61 ≤ x ∧ x ≤ 0x66 then x - 0x61 + 10
  else if 0x41 ≤ x ∧ x ≤ 0x46 then x - 0x41 + 10
  else 0

/-- The bytes of a percent-decoded capture (the library's `pctDecode`): a
percent sign and the two digits after it give one byte, any other rune its
own bytes. A capture never ends inside a triplet. -/
def pctDecodeBytes : List Char → List Nat
  | [] => []
  | c :: rest =>
    if c = '%' then
      match rest with
      | h :: l :: rest2 => (unhex h * 16 + unhex l) :: pctDecodeBytes rest2
      | _ => []
    else (String.utf8EncodeChar c).map UInt8.toNat ++ pctDecodeBytes rest

/-- Go's `utf8.DecodeRune` on the bytes of a string: the rune and the number
of bytes it takes; bytes that start no valid encoding give U+FFFD and take
one byte. -/
def decodeRune : List Nat → Char × Nat
  | [] => (Char.ofNat 0xFFFD, 0)
  | p0 :: rest =>
    if p0 < 0x80 then (Char.ofNat p0, 1)
    else if p0 < 0xC2 ∨ 0xF4 < p0 then (Char.ofNat 0xFFFD, 1)
    else
      let sz := if p0 < 0xE0 then 2 else if p0 < 0xF0 then 3 else 4
      let lo := if p0 = 0xE0 then 0xA0 else if p0 = 0xF0 then 0x90 else 0x80
      let hi := if p0 = 0xED then 0x9F else if p0 = 0xF4 then 0x8F else 0xBF
      if rest.length + 1 < sz then (Char.ofNat 0xFFFD, 1)
      else
        match rest with
        | [] => (Char.ofNat 0xFFFD, 1)
        | b1 :: rest1 =>
          if b1 < lo ∨ hi < b1 then (Char.ofNat 0xFFFD, 1)
          else if sz ≤ 2 then (Char.ofNat ((p0 % 32) * 64 + b1 % 64), 2)
          else
            match rest1 with
            | [] => (Char.ofNat 0xFFFD, 1)
            | b2 :: rest2 =>
              if b2 < 0x80 ∨ 0xBF < b2 then (Char.ofNat 0xFFFD, 1)
              else if sz ≤ 3 then
                (Char.ofNat ((p0 % 16) * 4096 + (b1 % 64) * 64 + b2 % 64), 3)
              else
                match rest2 with
                | [] => (Char.ofNat 0xFFFD, 1)
                | b3 :: _ =>
                  if b3 < 0x80 ∨ 0xBF < b3 then (Char.ofNat 0xFFFD, 1)
                  else
                    (Char.ofNat
                      ((p0 % 8) * 262144 + (b1 % 64) * 4096 + (b2 % 64) * 64 + b3 % 64), 4)

/-- The runes a Go string of the given bytes is read as: `decodeRune` applied
until the bytes are used up; the first argument bounds the number of runes
and is the number of bytes. -/
def decodeRunesLoop : Nat → List Nat → List Char
  | 0, _ => []
  | _, [] => []
  | n + 1, b :: bs =>
    (decodeRune (b :: bs)).1 :: decodeRunesLoop n ((b :: bs).drop (decodeRune (b :: bs)).2)

/-- The runes a Go string of the given bytes is read as. -/
def decodeRunes (bytes : List Nat) : List Char :=
  decodeRunesLoop bytes.length bytes

/-- The library's `pctDecode`, the result read as runes. -/
def pctDecode (raw : List Char) : String :=
  String.mk (decodeRunes (pctDecodeBytes raw))

/-- The library's `Values`: variable names with their decoded values. -/
abbrev Values := List (String × String)

/-- The `Values.Get(name).String()`: the empty string for a name without a
value. -/
def Values.Get (values : Values) (name : String) : String :=
  match values.lookup name with
  | some v => v
  | none => ""

/-- The `Template.Match`: nil (`none`) when the input does not match. -/
def Template.Match (t : Template) (expansion : String) : Option Values :=
  (matchParts t.parts expansion.toList).map
    (fun caps => caps.map (fun cap => (cap.1, pctDecode cap.2)))

/-! ## `encoding/json` on the discovery response -/

/-- A lower-case hexadecimal digit (`hex[n]` of `encoding/json`). -/
def hexLower (n : Nat) : Char :=
  if n < 10 then Char.ofNat (48 + n) else Char.ofNat (87 + n)

/-- How `encoding/json` writes one rune of a string (HTML escaping on, as in
`json.Marshal`). -/
def jsonEscapeRune (c : Char) : List Char :=
  let x := c.toNat
  if c = '\\' ∨ c = '"' then ['\\', c]
  else if x = 0x08 then ['\\', 'b']
  else if x = 0x0c then ['\\', 'f']
  else if x = 0x0a then ['\\', 'n']
  else if x = 0x0d then ['\\', 'r']
  else if x = 0x09 then ['\\', 't']
  else if x < 0x20 ∨ c = '<' ∨ c = '>' ∨ c = '&' then
    ['\\', 'u', '0', '0', hexLower (x / 16), hexLower (x % 16)]
  else if x = 0x2028 ∨ x = 0x2029 then ['\\', 'u', '2', '0', '2', hexLower (x % 16)]
  else [c]

/-- A JSON string literal as `encoding/json` writes it. -/
def jsonString (s : String) : List Char :=
  ['"'] ++ s.toList.flatMap jsonEscapeRune ++ ['"']

/-- The `Response` struct of `handleDiscovery`. -/
structure Response where
  Mailbox : String
  Host : String
  URI : String

/-- The `json.Marshal` of a `Response`: an object of three string fields in
the order of declaration; it has no failing case. -/
def jsonMarshalResponse (r : Response) : Except GoError String :=
  .ok (String.mk
    ("\x7b\"mailbox\":".toList ++ jsonString r.Mailbox ++ ",\"host\":".toList ++
      jsonString r.Host ++ ",\"uri\":".toList ++ jsonString r.URI ++ "\x7d".toList))

/-! ## The resource router (`mcp.go`) -/

/-- The constant `mimeTypeJSON`. -/
def mimeTypeJSON : String := "application/json"

/-- The `mcp.ResourceContents` fields the handlers set. -/
structure ResourceContents where
  URI : String
  MIMEType : String
  Text : String
  Blob : List UInt8

/-- The `mcp.ReadResourceResult`. -/
structure ReadResourceResult where
  Contents : List ResourceContents

/-- The `mcp.ReadResourceRequest`: the requested URI (`r.Params.URI`). -/
structure ReadResourceRequest where
  URI : String

/-- The `IMAPClient` interface, over the state `σ` of the implementation. -/
structure IMAPClient (σ : Type) where
  Mailbox : σ → String
  Host : σ → String
  ListEmails : σ → Outcome Listing × σ
  RetrieveEmailHead : String → σ → Outcome (EmailHead × Option GoError) × σ
  RetrieveEmailBody : String → σ → Outcome (EmailBodies × Option GoError) × σ

/-- The `EmersionImap` adapter as an `IMAPClient`; its state is the adapter
and the network. -/
def emersionClient : IMAPClient (EmersionImap × Network) where
  Mailbox := fun s => s.1.mailbox
  Host := fun s => s.1.host
  ListEmails := fun s => ListEmails s.1 s.2
  RetrieveEmailHead := fun id s => RetrieveEmailHead s.1 s.2 id
  RetrieveEmailBody := fun id s => RetrieveEmailBody s.1 s.2 id

/-- What a handler returns: `(out, problem)`. -/
abbrev HandlerResult := Option ReadResourceResult × Option GoError

/-- The constant `uriTemplateRoot`. -/
def uriTemplateRoot : String := "mcp-imap://{inbox}@{host}/"

/-- The `MCPImap.handleDiscovery`. -/
def handleDiscovery {σ : Type} (client : IMAPClient σ) (_r : ReadResourceRequest) (s : σ) :
    HandlerResult :=
  match jsonMarshalResponse
      { Mailbox := client.Mailbox s, Host := client.Host s,
        URI := "mcp-imap://" ++ client.Mailbox s ++ "@" ++ client.Host s ++ "/" } with
  | .error err => (none, some err)
  | .ok output =>
    (some { Contents := [] ++
        [{ URI := "mcp-imap://" ++ client.Mailbox s ++ "@" ++ client.Host s ++ "/",
           MIMEType := mimeTypeJSON, Text := output, Blob := [] }] }, none)

/-- The body of the loop of `handleClientRoot` on one yielded pair, on the
loop state `(out.Contents, problem)`; it never stops the iteration.
`jsonMarshal` is `json.Marshal` on an `EmailSummary`. -/
def rootLoopBody {σ : Type} (client : IMAPClient σ) (s : σ)
    (jsonMarshal : EmailSummary → Except GoError String)
    (email : EmailSummary) (err : Option GoError)
    (st : List ResourceContents × Option GoError) :
    (List ResourceContents × Option GoError) × Bool :=
  match err with
  | some e => ((st.1, errorsJoin [st.2, some e]), true)
  | none =>
    match jsonMarshal email with
    | .error encodingProblem => ((st.1, errorsJoin [st.2, some encodingProblem]), true)
    | .ok body =>
      ((st.1 ++
          [{ URI := "mcp-imap://" ++ client.Mailbox s ++ "@" ++ client.Host s ++ "/email/" ++
               email.ID,
             MIMEType := mimeTypeJSON, Text := body, Blob := [] }], st.2), true)

/-- The `MCPImap.handleClientRoot`. -/
def handleClientRoot {σ : Type} (client : IMAPClient σ)
    (jsonMarshal : EmailSummary → Except GoError String)
    (_r : ReadResourceRequest) (s : σ) : Outcome HandlerResult × σ :=
  match client.ListEmails s with
  | (.panicked msg, s1) => (.panicked msg, s1)
  | (.returned (.failed err), s1) => (.returned (none, some err), s1)
  | (.returned (.sequence emails), s1) =>
    match emails (List ResourceContents × Option GoError)
        (rootLoopBody client s1 jsonMarshal) ([], none) with
    | .panicked msg => (.panicked msg, s1)
    | .returned (contents, problem) => (.returned (some { Contents := contents }, problem), s1)

/-- The constant `uriPatternEmailHead`. -/
def uriPatternEmailHead : String := "mcp-imap://{inbox}@{host}/email/{email.id}"

/-- The `MCPImap.handleClientEmail`. `jsonMarshal` is `json.Marshal` on an
`EmailHead`. -/
def handleClientEmail {σ : Type} (client : IMAPClient σ)
    (jsonMarshal : EmailHead → Except GoError String)
    (r : ReadResourceRequest) (s : σ) : Outcome HandlerResult × σ :=
  let uri := r.URI
  match MustNew uriPatternEmailHead with
  | .panicked msg => (.panicked msg, s)
  | .returned template =>
    match template.Match uri with
    | none => (.returned (none, some (.text ("uri " ++ uri ++ " does not match template"))), s)
    | some values =>
      let emailID := values.Get "email.id"
      if emailID = "" then
        (.returned (none, some (.text ("email id not found in uri " ++ uri))), s)
      else
        match client.RetrieveEmailHead emailID s with
        | (.panicked msg, s1) => (.panicked msg, s1)
        | (.returned (_, some err), s1) => (.returned (none, some err), s1)
        | (.returned (head, none), s1) =>
          match jsonMarshal head with
          | .error encodingProblem => (.returned (none, some encodingProblem), s1)
          | .ok body =>
            (.returned
              (some { Contents := [{ URI := "", MIMEType := mimeTypeJSON, Text := body,
                                     Blob := [] }] }, none), s1)

/-- The constant `uriPatternEmailBodies`. -/
def uriPatternEmailBodies : String := "mcp-imap://{inbox}@{host}/email/{email.id}/bodies"

/-- The content item `handleClientEmailBody` appends for one body. -/
def bodyContents (body : EmailBody) : ResourceContents :=
  { URI := "", MIMEType := body.MimeType, Text := "", Blob := body.Data }

/-- The `MCPImap.handleClientEmailBody`. -/
def handleClientEmailBody {σ : Type} (client : IMAPClient σ)
    (r : ReadResourceRequest) (s : σ) : Outcome HandlerResult × σ :=
  let uri := r.URI
  match MustNew uriPatternEmailBodies with
  | .panicked msg => (.panicked msg, s)
  | .returned template =>
    match template.Match uri with
    | none => (.returned (none, some (.text ("uri " ++ uri ++ " does not match template"))), s)
    | some values =>
      let emailID := values.Get "email.id"
      if emailID = "" then
        (.returned (none, some (.text ("email id not found in uri " ++ uri))), s)
      else
        match client.RetrieveEmailBody emailID s with
        | (.panicked msg, s1) => (.panicked msg, s1)
        | (.returned (_, some err), s1) => (.returned (none, some err), s1)
        | (.returned (bodies, none), s1) =>
          (.returned (some { Contents := bodies.map bodyContents }, none), s1)

/-! ## Definitions used to state the properties -/

/-- The body a part contributes to the result: one entry, of the declared
MIME type and the full payload, for an inline part, nothing otherwise. -/
def inlineBody (p : Part) : Option EmailBody :=
  match p.Header, p.Body with
  | .inline (.ok contentType), .ok b => some { MimeType := contentType, Data := b }
  | _, _ => none

/-- Whether a part can be consumed: an inline part needs a well-formed content
type and a readable payload; a part that is not inline always can. -/
def partReadable (p : Part) : Bool :=
  match p.Header, p.Body with
  | .inline (.ok _), .ok _ => true
  | .inline _, _ => false
  | .attachment, _ => true

/-- The decomposition of the parts a reader delivers: the inline bodies in
order, or the first failure (a part-iteration error other than end-of-parts,
a malformed content type, a payload read error). -/
def decomposeParts : MailReader → Except GoError EmailBodies
  | [] => .ok []
  | .error .eof :: _ => .ok []
  | .error err :: _ => .error err
  | .ok p :: rest =>
    match p.Header, p.Body with
    | .inline (.error err), _ => .error (.operational "extracting content header" err)
    | .inline (.ok _), .error err => .error (.operational "reading body" err)
    | .inline (.ok contentType), .ok b =>
      match decomposeParts rest with
      | .error err => .error err
      | .ok bodies => .ok ({ MimeType := contentType, Data := b } :: bodies)
    | .attachment, _ => decomposeParts rest

/-- The decomposition of one body-section literal: the failure of
`mail.CreateReader` on an unparsable message, or that of its parts. -/
def decompose (literal : LiteralReader) : Except GoError EmailBodies :=
  match literal.createReader with
  | .error err => .error err
  | .ok mr => decomposeParts mr

/-- The body-section literals of a fetch response, in order. -/
def bodySections : List FetchMessageData → List LiteralReader
  | [] => []
  | msg :: rest =>
    msg.items.filterMap (fun item =>
      match item with
      | .bodySection literal => some literal
      | _ => none) ++ bodySections rest

/-- The bodies of the literals that decompose, concatenated in order. -/
def allBodies : List LiteralReader → EmailBodies
  | [] => []
  | literal :: rest =>
    match decompose literal with
    | .ok bodies => bodies ++ allBodies rest
    | .error _ => allBodies rest

/-- The email id a template extracts from a URI, when the URI matches. -/
def matchEmailID (pattern uri : String) : Option String :=
  match MustNew pattern with
  | .panicked _ => none
  | .returned template => (template.Match uri).map (fun values => values.Get "email.id")

/-- The loops of `RetrieveEmailBody` seen over the body-section literals
alone: each literal is consumed into the output, the first failure ends the
run. -/
def consumeLiterals : List LiteralReader → EmailBodies → Except GoError EmailBodies
  | [], output => .ok output
  | literal :: rest, output =>
    match consumeEmail output literal with
    | (_, some err) => .error err
    | (output1, none) => consumeLiterals rest output1

/-- Reads one rune of the body of a JSON string literal (RFC 8259): a rune
written as itself or as an escape; none at the closing quote or at a
malformed escape. -/
def readJsonRune : List Char → Option (Char × List Char)
  | [] => none
  | c :: rest =>
    if c = '"' then none
    else if c = '\\' then
      match rest with
      | [] => none
      | e :: rest1 =>
        if e = '"' ∨ e = '\\' ∨ e = '/' then some (e, rest1)
        else if e = 'b' then some (Char.ofNat 0x08, rest1)
        else if e = 'f' then some (Char.ofNat 0x0c, rest1)
        else if e = 'n' then some (Char.ofNat 0x0a, rest1)
        else if e = 'r' then some (Char.ofNat 0x0d, rest1)
        else if e = 't' then some (Char.ofNat 0x09, rest1)
        else if e = 'u' then
          match rest1 with
          | h3 :: h2 :: h1 :: h0 :: rest2 =>
            if isHexDigit h3 && isHexDigit h2 && isHexDigit h1 && isHexDigit h0 then
              some (Char.ofNat (((unhex h3 * 16 + unhex h2) * 16 + unhex h1) * 16 + unhex h0),
                rest2)
            else none
          | _ => none
        else none
    else some (c, rest)

/-- Reads the body of a JSON string literal up to its closing quote: the
string it denotes and the input after the quote. The first argument bounds
the number of runes read. -/
def readJsonString : Nat → List Char → Option (List Char × List Char)
  | 0, _ => none
  | _ + 1, [] => none
  | n + 1, c :: cs =>
    if c = '"' then some ([], cs)
    else
      match readJsonRune (c :: cs) with
      | none => none
      | some (r, rest) => (readJsonString n rest).map (fun res => (r :: res.1, res.2))

/-- Removes the given text from the start of the input. -/
def stripLiteral : List Char → List Char → Option (List Char)
  | [], input => some input
  | _ :: _, [] => none
  | l :: ls, c :: cs => if c = l then stripLiteral ls cs else none

/-- Reads a discovery payload: the JSON object of the string fields
"mailbox", "host" and "uri", in this order. -/
def readDiscoveryPayload (text : String) : Option Response :=
  match stripLiteral "\x7b\"mailbox\":\"".toList text.toList with
  | none => none
  | some r1 =>
    match readJsonString (r1.length + 1) r1 with
    | none => none
    | some (mailbox, r2) =>
      match stripLiteral ",\"host\":\"".toList r2 with
      | none => none
      | some r3 =>
        match readJsonString (r3.length + 1) r3 with
        | none => none
        | some (host, r4) =>
          match stripLiteral ",\"uri\":\"".toList r4 with
          | none => none
          | some r5 =>
            match readJsonString (r5.length + 1) r5 with
            | none => none
            | some (uri, r6) =>
              if r6 = ['\x7d'] then
                some { Mailbox := String.mk mailbox, Host := String.mk host,
                       URI := String.mk uri }
              else none

/-- The content item listing emits for a yielded pair: none for a pair that
carries an error or whose summary does not serialize, otherwise the item
addressed at `mcp-imap://{mailbox}@{host}/email/{id}` with the JSON text. -/
def rootItem (mailbox host : String) (jsonMarshal : EmailSummary → Except GoError String)
    (p : EmailSummary × Option GoError) : Option ResourceContents :=
  match p.2, jsonMarshal p.1 with
  | none, .ok body =>
    some { URI := "mcp-imap://" ++ mailbox ++ "@" ++ host ++ "/email/" ++ p.1.ID,
           MIMEType := mimeTypeJSON, Text := body, Blob := [] }
  | _, _ => none

/-- Whether a yielded pair fails: it carries an error, or its summary does
not serialize. -/
def pairFails (jsonMarshal : EmailSummary → Except GoError String)
    (p : EmailSummary × Option GoError) : Bool :=
  match p.2, jsonMarshal p.1 with
  | none, .ok _ => false
  | _, _ => true

/-- The number a run of decimal digits denotes. -/
def decimalValue (ds : List Char) : Nat :=
  ds.foldl (fun n c => n * 10 + (c.toNat - 48)) 0

/-- The ids `Sscanf` accepts, as a relation with the number scanned: optional white space
without a newline, then a non-empty run of decimal digits that denotes a
number below `2 ^ 32`, then anything that does not start with a digit. -/
def AcceptedAs (id : List Char) (n : Nat) : Prop :=
  ∃ ws ds rest, id = ws ++ ds ++ rest ∧
    (∀ c ∈ ws, isSpace c = true ∧ c ≠ '\n') ∧
    ds ≠ [] ∧ (∀ c ∈ ds, c.isDigit = true) ∧
    (∀ c, rest.head? = some c → c.isDigit = false) ∧
    decimalValue ds = n ∧ n < 2 ^ 32

/-- The number an id is accepted as, if any: skip the leading white space
other than newline, take the run of decimal digits that follows; the run
must not be empty and must denote a number below `2 ^ 32`. What follows the
run is not looked at. -/
def acceptedValue (id : List Char) : Option Nat :=
  let digits := (id.dropWhile (fun c => isSpace c && !(c == '\n'))).takeWhile Char.isDigit
  if digits ≠ [] ∧ decimalValue digits < 2 ^ 32 then some (decimalValue digits) else none

/-- The text a simple expression can capture, read from the given position:
units of one unreserved rune or of a percent sign and two hexadecimal
digits. -/
def valueText : PctState → List Char → Bool
  | .unit, [] => true
  | .unit, c :: cs =>
    if isUnreserved c then valueText .unit cs
    else if c = '%' then valueText .pct cs
    else false
  | .pct, [] => false
  | .pct, c :: cs => isHexDigit c && valueText .pctHex cs
  | .pctHex, [] => false
  | .pctHex, c :: cs => isHexDigit c && valueText .unit cs

/-! ## Sample inputs -/

/-- A message of an inline text part, an inline HTML part and an attachment. -/
def sampleLiteral : LiteralReader :=
  { createReader := .ok
      [.ok { Header := .inline (.ok "text/plain"), Body := .ok [104, 105] },
       .ok { Header := .inline (.ok "text/html"), Body := .ok [60, 112, 62] },
       .ok { Header := .attachment, Body := .ok [1, 2, 3] }] }

/-- A message that `mail.CreateReader` cannot parse. -/
def brokenLiteral : LiteralReader :=
  { createReader := .error (.text "malformed message") }

/-- A message of one inline text part, the last message of the sample
mailbox. -/
def lastLiteral : LiteralReader :=
  { createReader := .ok
      [.ok { Header := .inline (.ok "text/plain"), Body := .ok [108, 97, 115, 116] }] }

/-- A connection to a server that accepts the login and the selection, finds
the messages 1 and 2, of which message 2 has no sender, and holds one
message under the unique identifiers 7 (three parts) and 12, a message with
a second, unparsable body section under 8, and `lastLiteral` as the message
of the largest unique identifier. -/
def sampleClient (conn : Nat) : Client where
  conn := conn
  authenticate := fun _ _ _ => none
  selectInbox := none
  search := .ok [1, 2]
  fetchSeq := fun _ =>
    [{ SeqNum := 1,
       items := [.envelope { Date := ⟨0⟩, Subject := "hello",
                             From := [{ Name := "Alice", Mailbox := "alice", Host := "a.org" }] }] },
     { SeqNum := 2,
       items := [.envelope { Date := ⟨0⟩, Subject := "no sender", From := [] }] }]
  fetchUID := fun set =>
    if set = .uid 7 ∨ set = .uid 12 then
      [{ SeqNum := 1, items := [.other, .bodySection sampleLiteral] }]
    else if set = .uid 8 then
      [{ SeqNum := 1, items := [.bodySection sampleLiteral, .bodySection brokenLiteral] }]
    else if set = .star then
      [{ SeqNum := 3, items := [.bodySection lastLiteral] }]
    else []

/-- A network on which every dial succeeds; the connection is numbered by the
calls made before it. -/
def sampleNetwork : Network :=
  { dialTLS := fun _ events => .ok (sampleClient events.length), events := [] }

/-- The adapter of the mailbox `bob` on `imap.example.com`. -/
def sampleAdapter : EmersionImap :=
  NewEmersionImap "bob" "imap.example.com" "secret"

/-- The adapter and the network after a first body retrieval. -/
def sampleAfterFirst : EmersionImap × Network :=
  (RetrieveEmailBody sampleAdapter sampleNetwork "7").2

/-- Three yielded pairs, the second with an error. -/
def samplePairs : List (EmailSummary × Option GoError) :=
  [({ ID := "1", Subject := "a", Received := ⟨0⟩, From := ["Alice"] }, none),
   ({ ID := "", Subject := "", Received := ⟨0⟩, From := [] }, some (.text "malformed envelope")),
   ({ ID := "3", Subject := "c", Received := ⟨0⟩, From := ["Carol"] }, none)]

/-- A client whose `ListEmails` yields `samplePairs`; its state counts the
calls of `RetrieveEmailBody`. -/
def sampleListingClient : IMAPClient Nat where
  Mailbox := fun _ => "bob"
  Host := fun _ => "imap.example.com"
  ListEmails := fun calls => (.returned (.sequence (Seq2.ofList samplePairs)), calls)
  RetrieveEmailHead := fun _ calls =>
    (.returned ({ ID := "", Subject := "", Received := ⟨0⟩, From := [] }, none), calls)
  RetrieveEmailBody := fun _ calls => (.returned ([], none), calls + 1)

/-- A stand-in for `json.Marshal` on a summary: it writes the subject. -/
def sampleMarshal (email : EmailSummary) : Except GoError String :=
  .ok email.Subject

/-! # Properties -/

/-! ## Message decomposition -/

theorem consumeParts_readable (parts : List Part) :
    ∀ data : EmailBodies, (∀ p ∈ parts, partReadable p = true) →
      consumeParts (parts.map Except.ok) data = (data ++ parts.filterMap inlineBody, none) := by
  induction parts with
  | nil => intro data _; simp [consumeParts]
  | cons p rest ih =>
    intro data h
    have hp : partReadable p = true := h p (List.mem_cons_self _ _)
    have hrest : ∀ q ∈ rest, partReadable q = true :=
      fun q hq => h q (List.mem_cons_of_mem _ hq)
    obtain ⟨header, body⟩ := p
    cases header with
    | attachment =>
      simp [consumeParts, inlineBody, ih data hrest]
    | inline ct =>
      cases ct with
      | error err => simp [partReadable] at hp
      | ok contentType =>
        cases body with
        | error err => simp [partReadable] at hp
        | ok b =>
          simp [consumeParts, inlineBody, ih _ hrest]

/-- C6: on a message that is a finite sequence of parts in which every inline
part has a well-formed content type and a readable payload, `consumeEmail`
returns no error and the accumulator followed by one body (declared MIME
type, full payload) per inline part, in order, without the other parts; a
message of an inline text part, an inline HTML part and an attachment gives,
from the empty accumulator, exactly the text body and then the HTML body. -/
theorem consumeEmail_inline_parts (data : EmailBodies) (parts : List Part)
    (h : ∀ p ∈ parts, partReadable p = true) :
    consumeEmail data { createReader := .ok (parts.map Except.ok) }
        = (data ++ parts.filterMap inlineBody, none) ∧
      ∀ (text html : List UInt8) (attachment : Except GoError (List UInt8)),
        consumeEmail []
            { createReader := .ok
                [.ok { Header := .inline (.ok "text/plain"), Body := .ok text },
                 .ok { Header := .inline (.ok "text/html"), Body := .ok html },
                 .ok { Header := .attachment, Body := attachment }] }
          = ([{ MimeType := "text/plain", Data := text },
              { MimeType := "text/html", Data := html }], none) := by
  refine ⟨?_, ?_⟩
  · simpa [consumeEmail] using consumeParts_readable parts data h
  · intro text html attachment
    simp [consumeEmail, consumeParts]

/-! ## Body retrieval -/

theorem consumeParts_decomposeParts (mr : MailReader) :
    ∀ data : EmailBodies,
      match decomposeParts mr with
      | .ok bodies => consumeParts mr data = (data ++ bodies, none)
      | .error err => (consumeParts mr data).2 = some err := by
  induction mr with
  | nil => intro data; simp [decomposeParts, consumeParts]
  | cons x rest ih =>
    intro data
    cases x with
    | error err => cases err <;> simp [decomposeParts, consumeParts]
    | ok p =>
      obtain ⟨header, body⟩ := p
      cases header with
      | attachment => simpa [decomposeParts, consumeParts] using ih data
      | inline ct =>
        cases ct with
        | error err => simp [decomposeParts, consumeParts]
        | ok contentType =>
          cases body with
          | error err => simp [decomposeParts, consumeParts]
          | ok b =>
            have h := ih (data ++ [{ MimeType := contentType, Data := b }])
            simp only [decomposeParts, consumeParts]
            cases hd : decomposeParts rest with
            | error err => simpa [hd] using h
            | ok bodies => simpa [hd] using h

theorem consumeEmail_decompose_ok (literal : LiteralReader) (data bodies : EmailBodies)
    (h : decompose literal = .ok bodies) :
    consumeEmail data literal = (data ++ bodies, none) := by
  unfold decompose at h
  unfold consumeEmail
  cases hc : literal.createReader with
  | error err => simp [hc] at h
  | ok mr =>
    simp only [hc] at h ⊢
    have := consumeParts_decomposeParts mr data
    simpa [h] using this

theorem consumeEmail_decompose_error (literal : LiteralReader) (data : EmailBodies)
    (err : GoError) (h : decompose literal = .error err) :
    (consumeEmail data literal).2 = some err := by
  unfold decompose at h
  unfold consumeEmail
  cases hc : literal.createReader with
  | error e => simp [hc] at h; simp [h]
  | ok mr =>
    simp only [hc] at h ⊢
    have := consumeParts_decomposeParts mr data
    simpa [h] using this

theorem retrieveItems_eq (items : List FetchItemData) :
    ∀ (rest : List LiteralReader) (output : EmailBodies),
      (match retrieveItems items output with
        | .error err => Except.error err
        | .ok output1 => consumeLiterals rest output1)
      = consumeLiterals
          (items.filterMap (fun item =>
            match item with
            | .bodySection literal => some literal
            | _ => none) ++ rest) output := by
  induction items with
  | nil => intro rest output; simp [retrieveItems]
  | cons item items ih =>
    intro rest output
    cases item with
    | envelope env => simpa [retrieveItems] using ih rest output
    | other => simpa [retrieveItems] using ih rest output
    | bodySection literal =>
      simp only [retrieveItems, List.filterMap_cons, List.cons_append, consumeLiterals]
      rcases hc : consumeEmail output literal with ⟨output1, _ | err⟩
      · simpa using ih rest output1
      · simp

theorem retrieveMessages_eq (msgs : List FetchMessageData) :
    ∀ output : EmailBodies,
      retrieveMessages msgs output = consumeLiterals (bodySections msgs) output := by
  induction msgs with
  | nil => intro output; simp [retrieveMessages, bodySections, consumeLiterals]
  | cons msg rest ih =>
    intro output
    have h := retrieveItems_eq msg.items (bodySections rest) output
    simp only [retrieveMessages, bodySections]
    rw [← h]
    cases retrieveItems msg.items output with
    | error err => rfl
    | ok output1 => simpa using ih output1

theorem consumeLiterals_all_ok (lits : List LiteralReader) :
    ∀ output : EmailBodies, (∀ l ∈ lits, ∃ bodies, decompose l = .ok bodies) →
      consumeLiterals lits output = .ok (output ++ allBodies lits) := by
  induction lits with
  | nil => intro output _; simp [consumeLiterals, allBodies]
  | cons l rest ih =>
    intro output h
    obtain ⟨bodies, hb⟩ := h l (List.mem_cons_self _ _)
    have hrest : ∀ l ∈ rest, ∃ bodies, decompose l = .ok bodies :=
      fun q hq => h q (List.mem_cons_of_mem _ hq)
    simp [consumeLiterals, allBodies, consumeEmail_decompose_ok l output bodies hb, hb,
      ih _ hrest]

theorem consumeLiterals_first_failure (pre : List LiteralReader) :
    ∀ (output : EmailBodies) (lit : LiteralReader) (post : List LiteralReader) (err : GoError),
      (∀ l ∈ pre, ∃ bodies, decompose l = .ok bodies) → decompose lit = .error err →
      consumeLiterals (pre ++ lit :: post) output = .error err := by
  induction pre with
  | nil =>
    intro output lit post err _ hlit
    have h := consumeEmail_decompose_error lit output err hlit
    rcases hc : consumeEmail output lit with ⟨output1, _ | e⟩
    · simp [hc] at h
    · simp [hc] at h; simp [consumeLiterals, hc, h]
  | cons l rest ih =>
    intro output lit post err h hlit
    obtain ⟨bodies, hb⟩ := h l (List.mem_cons_self _ _)
    have hrest : ∀ l ∈ rest, ∃ bodies, decompose l = .ok bodies :=
      fun q hq => h q (List.mem_cons_of_mem _ hq)
    simp [consumeLiterals, consumeEmail_decompose_ok l output bodies hb,
      ih _ lit post err hrest hlit]

theorem ensureSession_established (e : EmersionImap) (net : Network) (client : Client)
    (hdial : net.dialTLS (e.host ++ ":993") net.events = .ok client)
    (hauth : client.authenticate e.mailbox e.mailbox e.password = none)
    (hsel : client.selectInbox = none) :
    ensureSession e net =
      (none, { e with session := some client },
        ((net.record (.dial (e.host ++ ":993"))).record
          (.authenticate client.conn e.mailbox e.mailbox e.password)).record
          (.select client.conn "INBOX" true)) := by
  simp [ensureSession, hdial, hauth, hsel]

theorem retrieveEmailBody_established (e : EmersionImap) (net : Network) (id : String)
    (client : Client)
    (hid : (Sscanf id).err = none ∧ (Sscanf id).count = 1)
    (hdial : net.dialTLS (e.host ++ ":993") net.events = .ok client)
    (hauth : client.authenticate e.mailbox e.mailbox e.password = none)
    (hsel : client.selectInbox = none) :
    (RetrieveEmailBody e net id).1 =
      match consumeLiterals (bodySections (client.fetchUID (UIDSetNum (Sscanf id).uid))) [] with
      | .error err => .returned ([], some err)
      | .ok output => .returned (output, none) := by
  unfold RetrieveEmailBody
  simp only [hid.1, hid.2, ensureSession_established e net client hdial hauth hsel,
    retrieveMessages_eq]
  cases consumeLiterals (bodySections (client.fetchUID (UIDSetNum (Sscanf id).uid))) [] <;> simp

theorem handleClientEmailBody_matched {σ : Type} (client : IMAPClient σ) (uri id : String)
    (s : σ) (huri : matchEmailID uriPatternEmailBodies uri = some id) (hne : id ≠ "") :
    (handleClientEmailBody client { URI := uri } s).1 =
      match (client.RetrieveEmailBody id s).1 with
      | .panicked msg => .panicked msg
      | .returned (_, some err) => .returned (none, some err)
      | .returned (bodies, none) =>
        .returned (some { Contents := bodies.map bodyContents }, none) := by
  unfold matchEmailID at huri
  unfold handleClientEmailBody
  cases hM : MustNew uriPatternEmailBodies with
  | panicked msg => simp [hM] at huri
  | returned template =>
    simp only [hM] at huri ⊢
    cases hm : template.Match uri with
    | none => simp [hm] at huri
    | some values =>
      simp only [hm, Option.map_some', Option.some.injEq] at huri ⊢
      simp only [huri, hne, if_false]
      rcases client.RetrieveEmailBody id s with ⟨_ | _, s1⟩
      · rename_i a; rcases a with ⟨bodies, _ | err⟩ <;> rfl
      · rfl

theorem sscanf_empty : (Sscanf "").err = some GoError.eof := by
  rfl

/-- C8: body retrieval is all-or-nothing. With an accepted id and an
established session, if the literals before some literal decompose and that
literal fails, `RetrieveEmailBody` returns that failure with no bodies and
`handleClientEmailBody` returns it with no result; if every literal
decomposes, they return the concatenation of all literals' inline bodies, in
order, and no error. -/
theorem retrieveEmailBody_all_or_nothing (e : EmersionImap) (net : Network) (id uri : String)
    (client : Client)
    (hid : (Sscanf id).err = none ∧ (Sscanf id).count = 1)
    (hdial : net.dialTLS (e.host ++ ":993") net.events = .ok client)
    (hauth : client.authenticate e.mailbox e.mailbox e.password = none)
    (hsel : client.selectInbox = none)
    (huri : matchEmailID uriPatternEmailBodies uri = some id) :
    (∀ (pre : List LiteralReader) (lit : LiteralReader) (post : List LiteralReader)
        (err : GoError),
        bodySections (client.fetchUID (UIDSetNum (Sscanf id).uid)) = pre ++ lit :: post →
        (∀ l ∈ pre, ∃ bodies, decompose l = .ok bodies) →
        decompose lit = .error err →
        (RetrieveEmailBody e net id).1 = .returned ([], some err) ∧
        (handleClientEmailBody emersionClient { URI := uri } (e, net)).1
          = .returned (none, some err)) ∧
    ((∀ l ∈ bodySections (client.fetchUID (UIDSetNum (Sscanf id).uid)), ∃ bodies, decompose l = .ok bodies) →
        (RetrieveEmailBody e net id).1
          = .returned (allBodies (bodySections (client.fetchUID (UIDSetNum (Sscanf id).uid))), none) ∧
        (handleClientEmailBody emersionClient { URI := uri } (e, net)).1
          = .returned
              (some { Contents :=
                (allBodies (bodySections (client.fetchUID (UIDSetNum (Sscanf id).uid)))).map bodyContents },
                none)) := by
  have hne : id ≠ "" := by
    intro h
    rw [h, sscanf_empty] at hid
    exact Option.noConfusion hid.1
  have hR := retrieveEmailBody_established e net id client hid hdial hauth hsel
  have hH := handleClientEmailBody_matched emersionClient uri id (e, net) huri hne
  have hE : (emersionClient.RetrieveEmailBody id (e, net)).1 = (RetrieveEmailBody e net id).1 :=
    rfl
  rw [hE] at hH
  refine ⟨?_, ?_⟩
  · intro pre lit post err hsplit hpre hlit
    have hfail := consumeLiterals_first_failure pre [] lit post err hpre hlit
    rw [hsplit, hfail] at hR
    refine ⟨hR, ?_⟩
    rw [hH, hR]
  · intro hall
    have hok := consumeLiterals_all_ok _ [] hall
    rw [hok] at hR
    simp only [List.nil_append] at hR
    refine ⟨hR, ?_⟩
    rw [hH, hR]

/-! ## Listing -/

theorem errorsJoin_some (problem : Option GoError) (e : GoError) :
    (errorsJoin [problem, some e]).isSome = true := by
  cases problem <;> simp [errorsJoin, List.reduceOption]

theorem rootLoop_ofList {σ : Type} (client : IMAPClient σ) (s1 : σ)
    (jsonMarshal : EmailSummary → Except GoError String)
    (pairs : List (EmailSummary × Option GoError)) :
    ∀ st : List ResourceContents × Option GoError,
      ∃ problem,
        Seq2.ofList pairs (List ResourceContents × Option GoError)
            (rootLoopBody client s1 jsonMarshal) st
          = .returned
              (st.1 ++ pairs.filterMap (rootItem (client.Mailbox s1) (client.Host s1) jsonMarshal),
                problem) ∧
        (problem.isSome = true ↔
          st.2.isSome = true ∨ 1 ≤ (pairs.filter (pairFails jsonMarshal)).length) := by
  induction pairs with
  | nil =>
    intro st
    exact ⟨st.2, by simp [Seq2.ofList], by simp⟩
  | cons p rest ih =>
    intro st
    obtain ⟨email, err⟩ := p
    cases err with
    | some e =>
      obtain ⟨problem, h1, h2⟩ := ih (st.1, errorsJoin [st.2, some e])
      refine ⟨problem, ?_, ?_⟩
      · simpa [Seq2.ofList, rootLoopBody, rootItem] using h1
      · simp [h2, errorsJoin_some, pairFails]
    | none =>
      cases hm : jsonMarshal email with
      | error encodingProblem =>
        obtain ⟨problem, h1, h2⟩ := ih (st.1, errorsJoin [st.2, some encodingProblem])
        refine ⟨problem, ?_, ?_⟩
        · simpa [Seq2.ofList, rootLoopBody, rootItem, hm] using h1
        · simp [h2, errorsJoin_some, pairFails, hm]
      | ok body =>
        obtain ⟨problem, h1, h2⟩ :=
          ih (st.1 ++
              [{ URI := "mcp-imap://" ++ client.Mailbox s1 ++ "@" ++ client.Host s1 ++
                   "/email/" ++ email.ID,
                 MIMEType := mimeTypeJSON, Text := body, Blob := [] }], st.2)
        refine ⟨problem, ?_, ?_⟩
        · simpa [Seq2.ofList, rootLoopBody, rootItem, hm] using h1
        · simpa [pairFails, hm] using h2

theorem rootItem_count (mailbox host : String)
    (jsonMarshal : EmailSummary → Except GoError String)
    (pairs : List (EmailSummary × Option GoError)) :
    (pairs.filterMap (rootItem mailbox host jsonMarshal)).length
      + (pairs.filter (pairFails jsonMarshal)).length = pairs.length := by
  induction pairs with
  | nil => simp
  | cons p rest ih =>
    obtain ⟨email, err⟩ := p
    cases err with
    | some e => simp [rootItem, pairFails]; omega
    | none =>
      cases hm : jsonMarshal email with
      | error encodingProblem => simp [rootItem, pairFails, hm]; omega
      | ok body => simp [rootItem, pairFails, hm]; omega

/-- C1: when the client's `ListEmails` yields the pairs `pairs`, of which `k`
fail (a non-nil error, or a summary that does not serialize),
`handleClientRoot` runs through all of them and returns the items of the
other pairs, in yield order, each addressed at
`mcp-imap://{mailbox}@{host}/email/{id}`: `N - k` items; the aggregate error
is non-nil exactly when `k ≥ 1`; for no pairs the content list is empty and
there is no error. -/
theorem handleClientRoot_partial_listing {σ : Type} (client : IMAPClient σ)
    (jsonMarshal : EmailSummary → Except GoError String) (r : ReadResourceRequest)
    (s s1 : σ) (pairs : List (EmailSummary × Option GoError))
    (hlist : client.ListEmails s = (.returned (.sequence (Seq2.ofList pairs)), s1)) :
    (∃ problem,
      handleClientRoot client jsonMarshal r s
        = (.returned
            (some { Contents :=
              pairs.filterMap (rootItem (client.Mailbox s1) (client.Host s1) jsonMarshal) },
              problem), s1) ∧
      (problem.isSome = true ↔ 1 ≤ (pairs.filter (pairFails jsonMarshal)).length)) ∧
    (pairs.filterMap (rootItem (client.Mailbox s1) (client.Host s1) jsonMarshal)).length
      + (pairs.filter (pairFails jsonMarshal)).length = pairs.length ∧
    (pairs = [] →
      handleClientRoot client jsonMarshal r s = (.returned (some { Contents := [] }, none), s1))
    := by
  refine ⟨?_, rootItem_count _ _ _ _, ?_⟩
  · obtain ⟨problem, h1, h2⟩ := rootLoop_ofList client s1 jsonMarshal pairs ([], none)
    refine ⟨problem, ?_, by simpa using h2⟩
    simp only [handleClientRoot, hlist, h1, List.nil_append]
  · intro hnil
    subst hnil
    simp [handleClientRoot, hlist, Seq2.ofList]

/-! ## Discovery -/

theorem hexLower_spec (n : Nat) (h : n < 16) :
    isHexDigit (hexLower n) = true ∧ unhex (hexLower n) = n := by
  interval_cases n <;> exact ⟨rfl, rfl⟩

theorem readJsonRune_escape (c : Char) (rest : List Char) :
    readJsonRune (jsonEscapeRune c ++ rest) = some (c, rest) := by
  have hc : Char.ofNat c.toNat = c := Char.ofNat_toNat c
  unfold jsonEscapeRune
  simp only
  split
  · rename_i h
    rcases h with h | h <;> subst h <;> rfl
  · rename_i h0
    have h0a : c ≠ '\\' := fun h => h0 (Or.inl h)
    have h0b : c ≠ '"' := fun h => h0 (Or.inr h)
    split
    · rename_i h; rw [← hc, h]; rfl
    · split
      · rename_i h; rw [← hc, h]; rfl
      · split
        · rename_i h; rw [← hc, h]; rfl
        · split
          · rename_i h; rw [← hc, h]; rfl
          · split
            · rename_i h; rw [← hc, h]; rfl
            · split
              · rename_i h
                have hx : c.toNat < 64 := by
                  rcases h with h | h | h | h
                  · omega
                  · rw [h]; decide
                  · rw [h]; decide
                  · rw [h]; decide
                obtain ⟨a1, a2⟩ := hexLower_spec (c.toNat / 16) (by omega)
                obtain ⟨b1, b2⟩ := hexLower_spec (c.toNat % 16) (by omega)
                have z1 : isHexDigit '0' = true := rfl
                have z2 : unhex '0' = 0 := rfl
                have hval : ((0 * 16 + 0) * 16 + c.toNat / 16) * 16 + c.toNat % 16 = c.toNat := by
                  omega
                simp only [List.cons_append, List.nil_append, readJsonRune]
                simp only [a1, a2, b1, b2, z1, z2, hval, hc, Bool.and_self, if_true]
                simp
              · rename_i h1
                split
                · rename_i h
                  obtain ⟨b1, b2⟩ := hexLower_spec (c.toNat % 16) (Nat.mod_lt _ (by decide))
                  have z1 : isHexDigit '0' = true := rfl
                  have z2 : unhex '0' = 0 := rfl
                  have t1 : isHexDigit '2' = true := rfl
                  have t2 : unhex '2' = 2 := rfl
                  have hval : ((2 * 16 + 0) * 16 + 2) * 16 + c.toNat % 16 = c.toNat := by
                    omega
                  simp only [List.cons_append, List.nil_append, readJsonRune]
                  simp only [b1, b2, z1, z2, t1, t2, hval, hc, Bool.and_self, if_true]
                  simp
                · simp [readJsonRune, h0a, h0b]

theorem jsonEscapeRune_head (c : Char) :
    ∃ d ds, jsonEscapeRune c = d :: ds ∧ d ≠ '"' := by
  unfold jsonEscapeRune
  simp only
  split
  · exact ⟨_, _, rfl, by decide⟩
  · rename_i h0
    have h0b : c ≠ '"' := fun h => h0 (Or.inr h)
    repeat' split
    all_goals first | exact ⟨_, _, rfl, by decide⟩ | exact ⟨_, _, rfl, h0b⟩

theorem jsonEscapeRune_length (c : Char) : 1 ≤ (jsonEscapeRune c).length := by
  obtain ⟨d, ds, h, _⟩ := jsonEscapeRune_head c
  rw [h]
  simp

theorem readJsonString_escape (s : List Char) :
    ∀ (n : Nat) (rest : List Char), (s.flatMap jsonEscapeRune).length < n →
      readJsonString n (s.flatMap jsonEscapeRune ++ '"' :: rest) = some (s, rest) := by
  induction s with
  | nil =>
    intro n rest hn
    cases n with
    | zero => simp at hn
    | succ n => simp [readJsonString]
  | cons c cs ih =>
    intro n rest hn
    cases n with
    | zero => simp at hn
    | succ n =>
      obtain ⟨d, ds, hd, hq⟩ := jsonEscapeRune_head c
      have hlen := jsonEscapeRune_length c
      have hrune := readJsonRune_escape c (cs.flatMap jsonEscapeRune ++ '"' :: rest)
      simp only [List.flatMap_cons, List.append_assoc] at hn ⊢
      rw [hd] at hrune ⊢
      simp only [List.cons_append] at hrune ⊢
      simp only [readJsonString, hq, if_false, hrune]
      rw [ih n rest (by simp only [List.length_append] at hn; omega)]
      rfl

theorem stripLiteral_append (lit rest : List Char) :
    stripLiteral lit (lit ++ rest) = some rest := by
  induction lit with
  | nil => cases rest <;> rfl
  | cons l ls ih => simpa [stripLiteral] using ih

theorem readJsonString_field (s : String) (rest : List Char) :
    readJsonString ((s.toList.flatMap jsonEscapeRune ++ '"' :: rest).length + 1)
        (s.toList.flatMap jsonEscapeRune ++ '"' :: rest)
      = some (s.toList, rest) := by
  apply readJsonString_escape
  simp only [List.length_append]
  omega

theorem readDiscoveryPayload_marshal (mailbox host uri : String) :
    readDiscoveryPayload
        (String.mk
          ("\x7b\"mailbox\":".toList ++ jsonString mailbox ++ ",\"host\":".toList ++
            jsonString host ++ ",\"uri\":".toList ++ jsonString uri ++ "\x7d".toList))
      = some { Mailbox := mailbox, Host := host, URI := uri } := by
  have hl : (String.mk
        ("\x7b\"mailbox\":".toList ++ jsonString mailbox ++ ",\"host\":".toList ++
          jsonString host ++ ",\"uri\":".toList ++ jsonString uri ++ "\x7d".toList)).toList
      = "\x7b\"mailbox\":\"".toList ++
          (mailbox.toList.flatMap jsonEscapeRune ++ '"' ::
            (",\"host\":\"".toList ++
              (host.toList.flatMap jsonEscapeRune ++ '"' ::
                (",\"uri\":\"".toList ++
                  (uri.toList.flatMap jsonEscapeRune ++ '"' :: ['\x7d']))))) := by
    simp [jsonString]
  unfold readDiscoveryPayload
  rw [hl, stripLiteral_append]
  simp only [readJsonString_field, stripLiteral_append, if_true]
  rfl


/-- C9: for every mailbox, host and password, `handleDiscovery` returns no
error and exactly one content item; its URI is `mcp-imap://{mailbox}@{host}/`
and its text is the JSON object whose fields "mailbox", "host" and "uri" read
back as the mailbox, the host and that URI; the result is the same for every
password, request, session and network. -/
theorem handleDiscovery_result (mailbox host password : String) (r : ReadResourceRequest)
    (net : Network) :
    (∃ text : String,
      handleDiscovery emersionClient r (NewEmersionImap mailbox host password, net)
        = (some { Contents :=
            [{ URI := "mcp-imap://" ++ mailbox ++ "@" ++ host ++ "/",
               MIMEType := "application/json", Text := text, Blob := [] }] }, none) ∧
      text = String.mk
          ("\x7b\"mailbox\":".toList ++ jsonString mailbox ++ ",\"host\":".toList ++
            jsonString host ++ ",\"uri\":".toList ++
            jsonString ("mcp-imap://" ++ mailbox ++ "@" ++ host ++ "/") ++ "\x7d".toList) ∧
      readDiscoveryPayload text
        = some { Mailbox := mailbox, Host := host,
                 URI := "mcp-imap://" ++ mailbox ++ "@" ++ host ++ "/" }) ∧
    ∀ (password1 : String) (r1 : ReadResourceRequest) (session : Option Client)
      (net1 : Network),
      handleDiscovery emersionClient r1
          ({ mailbox := mailbox, host := host, password := password1, session := session }, net1)
        = handleDiscovery emersionClient r (NewEmersionImap mailbox host password, net) := by
  refine ⟨⟨_, ?_, rfl, readDiscoveryPayload_marshal _ _ _⟩, ?_⟩
  · simp [handleDiscovery, jsonMarshalResponse, emersionClient, NewEmersionImap, mimeTypeJSON]
  · intro password1 r1 session net1
    rfl

/-! ## Identifier scanning -/

theorem isDigit_iff (c : Char) : c.isDigit = true ↔ 48 ≤ c.toNat ∧ c.toNat ≤ 57 := by
  simp only [Char.isDigit, Char.toNat, Bool.and_eq_true, decide_eq_true_eq, ge_iff_le]
  rw [UInt32.le_def, UInt32.le_def]
  simp [UInt32.toNat]
  rfl

theorem isSpace_of_isDigit (c : Char) (h : c.isDigit = true) : isSpace c = false := by
  rw [isDigit_iff] at h
  simp only [isSpace, Bool.or_eq_false_iff, Bool.and_eq_false_iff, decide_eq_false_iff_not,
    beq_eq_false_iff_ne, ne_eq]
  omega

theorem ne_of_not_isSpace (c d : Char) (hc : isSpace c = false) (hd : isSpace d = true) :
    c ≠ d := by
  intro h
  rw [h, hd] at hc
  exact Bool.noConfusion hc

theorem skipSpace_of_head (r : List Char) (h : ∀ c, r.head? = some c → isSpace c = false) :
    skipSpace r = .ok r := by
  cases r with
  | nil => rfl
  | cons c cs =>
    have hc : isSpace c = false := h c rfl
    have h1 : c ≠ '\r' := ne_of_not_isSpace c _ hc (by decide)
    have h2 : c ≠ '\n' := ne_of_not_isSpace c _ hc (by decide)
    simp [skipSpace, h1, h2, hc]

theorem skipSpace_of_spaces (ws : List Char) (r : List Char)
    (hws : ∀ c ∈ ws, isSpace c = true ∧ c ≠ '\n')
    (h : ∀ c, r.head? = some c → isSpace c = false) :
    skipSpace (ws ++ r) = .ok r := by
  induction ws with
  | nil => simpa using skipSpace_of_head r h
  | cons c cs ih =>
    have hc := hws c (List.mem_cons_self _ _)
    have ih1 := ih (fun d hd => hws d (List.mem_cons_of_mem _ hd))
    simp only [List.cons_append, skipSpace]
    split
    · exact ih1
    · simp [hc.2, hc.1, ih1]

theorem skipSpace_sound (l : List Char) :
    ∀ r, skipSpace l = .ok r →
      ∃ ws, l = ws ++ r ∧ (∀ c ∈ ws, isSpace c = true ∧ c ≠ '\n') ∧
        (∀ c, r.head? = some c → isSpace c = false) := by
  induction l with
  | nil =>
    intro r h
    simp [skipSpace] at h
    subst h
    exact ⟨[], rfl, by simp, by simp⟩
  | cons c cs ih =>
    intro r h
    simp only [skipSpace] at h
    split at h
    · rename_i hcr
      obtain ⟨ws, h1, h2, h3⟩ := ih r h
      refine ⟨c :: ws, by simp [h1], ?_, h3⟩
      intro d hd
      rcases List.mem_cons.mp hd with hd | hd
      · subst hd
        rw [hcr.1]
        exact ⟨by decide, by decide⟩
      · exact h2 d hd
    · split at h
      · cases h
      · split at h
        · rename_i hnl hsp
          obtain ⟨ws, h1, h2, h3⟩ := ih r h
          refine ⟨c :: ws, by simp [h1], ?_, h3⟩
          intro d hd
          rcases List.mem_cons.mp hd with hd | hd
          · subst hd
            exact ⟨hsp, hnl⟩
          · exact h2 d hd
        · rename_i hnl hsp
          cases h
          refine ⟨[], rfl, by simp, ?_⟩
          intro d hd
          simp at hd
          subst hd
          simpa using hsp

theorem acceptDigits_spec (l : List Char) :
    l = (acceptDigits l).1 ++ (acceptDigits l).2 ∧
      (∀ c ∈ (acceptDigits l).1, c.isDigit = true) ∧
      (∀ c, (acceptDigits l).2.head? = some c → c.isDigit = false) := by
  induction l with
  | nil => simp [acceptDigits]
  | cons c cs ih =>
    by_cases hc : c.isDigit = true
    · obtain ⟨h1, h2, h3⟩ := ih
      simp only [acceptDigits, hc, if_true]
      refine ⟨by simpa using h1, ?_, h3⟩
      intro d hd
      rcases List.mem_cons.mp hd with hd | hd
      · subst hd; exact hc
      · exact h2 d hd
    · simp only [acceptDigits, hc]
      simp
      simpa using hc

theorem acceptDigits_append (ds rest : List Char) (hds : ∀ c ∈ ds, c.isDigit = true)
    (hrest : ∀ c, rest.head? = some c → c.isDigit = false) :
    acceptDigits (ds ++ rest) = (ds, rest) := by
  induction ds with
  | nil =>
    cases rest with
    | nil => rfl
    | cons c cs =>
      have := hrest c rfl
      simp [acceptDigits, this]
  | cons d ds ih =>
    have hd := hds d (List.mem_cons_self _ _)
    have ih1 := ih (fun c hc => hds c (List.mem_cons_of_mem _ hc))
    simp [acceptDigits, hd, ih1]

theorem foldl_decimal_le (ds : List Char) :
    ∀ n : Nat, n ≤ ds.foldl (fun n c => n * 10 + (c.toNat - 48)) n := by
  induction ds with
  | nil => intro n; simp
  | cons d ds ih =>
    intro n
    have := ih (n * 10 + (d.toNat - 48))
    simp only [List.foldl_cons]
    omega

theorem parseUintLoop_spec (ds : List Char) (hds : ∀ c ∈ ds, c.isDigit = true) :
    ∀ n : Nat, n ≤ maxUint64 →
      (ds.foldl (fun n c => n * 10 + (c.toNat - 48)) n ≤ maxUint64 →
        parseUintLoop ds n = .ok (ds.foldl (fun n c => n * 10 + (c.toNat - 48)) n)) ∧
      (maxUint64 < ds.foldl (fun n c => n * 10 + (c.toNat - 48)) n →
        ∃ err, parseUintLoop ds n = .error err) := by
  induction ds with
  | nil =>
    intro n hn
    refine ⟨fun _ => rfl, fun h => ?_⟩
    simp only [List.foldl_nil] at h
    omega
  | cons d ds ih =>
    intro n hn
    have hd := hds d (List.mem_cons_self _ _)
    have ih1 := ih (fun c hc => hds c (List.mem_cons_of_mem _ hc))
    have hmono := foldl_decimal_le ds (n * 10 + (d.toNat - 48))
    simp only [List.foldl_cons, parseUintLoop, hd, not_true_eq_false, if_false]
    by_cases h1 : n ≥ maxUint64 / 10 + 1
    · simp only [h1, if_true]
      refine ⟨fun h => ?_, fun _ => ⟨_, rfl⟩⟩
      exfalso
      unfold maxUint64 at *
      omega
    · simp only [h1, if_false]
      by_cases h2 : n * 10 + (d.toNat - 48) > maxUint64
      · simp only [h2, if_true]
        refine ⟨fun h => ?_, fun _ => ⟨_, rfl⟩⟩
        exfalso
        omega
      · simp only [h2, if_false]
        exact ih1 _ (by omega)

theorem scanUint_complete (ds rest : List Char) (n : Nat) (hne : ds ≠ [])
    (hds : ∀ c ∈ ds, c.isDigit = true)
    (hrest : ∀ c, rest.head? = some c → c.isDigit = false)
    (hval : decimalValue ds = n) (hn : n < 2 ^ 32) :
    scanUint (ds ++ rest) = .ok (n, rest) := by
  cases ds with
  | nil => exact absurd rfl hne
  | cons d ds1 =>
    have hd := hds d (List.mem_cons_self _ _)
    have hskip : skipSpace (d :: ds1 ++ rest) = .ok (d :: ds1 ++ rest) := by
      apply skipSpace_of_head
      intro c hc
      simp at hc
      subst hc
      exact isSpace_of_isDigit _ hd
    have hacc := acceptDigits_append (d :: ds1) rest hds hrest
    have hparse : parseUint (d :: ds1) = .ok n := by
      have h := (parseUintLoop_spec (d :: ds1) hds 0 (by unfold maxUint64; omega)).1
      unfold decimalValue at hval
      rw [hval] at h
      simp only [parseUint, List.cons_ne_nil, if_false]
      exact h (by unfold maxUint64; omega)
    unfold scanUint
    rw [hskip]
    simp only [List.cons_append] at hacc ⊢
    simp only [scanNumber, hd, if_true, hacc, hparse]
    have hx : n * 4294967296 % 18446744073709551616 / 4294967296 = n := by omega
    simp [hx]

theorem scanUint_sound (input : List Char) (n : Nat) (rest : List Char)
    (hhead : ∀ c, input.head? = some c → isSpace c = false)
    (h : scanUint input = .ok (n, rest)) :
    ∃ ds, input = ds ++ rest ∧ ds ≠ [] ∧ (∀ c ∈ ds, c.isDigit = true) ∧
      (∀ c, rest.head? = some c → c.isDigit = false) ∧ decimalValue ds = n ∧ n < 2 ^ 32 := by
  unfold scanUint at h
  rw [skipSpace_of_head input hhead] at h
  cases input with
  | nil => simp at h
  | cons c cs =>
    simp only [scanNumber] at h
    by_cases hc : c.isDigit = true
    · simp only [hc, if_true] at h
      obtain ⟨h1, h2, h3⟩ := acceptDigits_spec (c :: cs)
      have hmem : c ∈ (acceptDigits (c :: cs)).1 := by simp [acceptDigits, hc]
      generalize acceptDigits (c :: cs) = res at h h1 h2 h3 hmem
      obtain ⟨tok, rest1⟩ := res
      simp only at h h1 h2 h3 hmem
      have htok : tok ≠ [] := List.ne_nil_of_mem hmem
      have hspec := parseUintLoop_spec tok h2 0 (by unfold maxUint64; omega)
      simp only [parseUint, htok, if_false] at h
      by_cases hle : tok.foldl (fun n c => n * 10 + (c.toNat - 48)) 0 ≤ maxUint64
      · rw [hspec.1 hle] at h
        simp only at h
        split at h
        · cases h
        · rename_i hx
          simp only [Except.ok.injEq, Prod.mk.injEq] at h
          obtain ⟨hn, hr⟩ := h
          subst hr
          refine ⟨tok, h1, htok, h2, h3, ?_, ?_⟩
          · exact hn
          · rw [← hn]
            unfold maxUint64 at hle
            omega
      · obtain ⟨err, herr⟩ := hspec.2 (by omega)
        rw [herr] at h
        cases h
    · simp [hc] at h

theorem accepted_scan (l : List Char) (n : Nat) (h : AcceptedAs l n) :
    ∃ input rest, skipSpace l = .ok input ∧ scanUint input = .ok (n, rest) := by
  obtain ⟨ws, ds, rest, hl, hws, hne, hds, hrest, hval, hn⟩ := h
  refine ⟨ds ++ rest, rest, ?_, scanUint_complete ds rest n hne hds hrest hval hn⟩
  rw [hl, List.append_assoc]
  apply skipSpace_of_spaces ws _ hws
  intro c hc
  cases ds with
  | nil => exact absurd rfl hne
  | cons d ds1 =>
    simp at hc
    subst hc
    exact isSpace_of_isDigit _ (hds _ (List.mem_cons_self _ _))

theorem sscanf_cases (str : String) :
    (∃ n, AcceptedAs (str.toList.take hugeWid) n ∧
        Sscanf str = { uid := n, count := 1, err := none }) ∨
    ((∀ n, ¬ AcceptedAs (str.toList.take hugeWid) n) ∧
        ∃ err, Sscanf str = { uid := 0, count := 0, err := some err }) := by
  unfold Sscanf
  cases hs : skipSpace (str.toList.take hugeWid) with
  | error err =>
    right
    refine ⟨?_, err, rfl⟩
    intro n hacc
    obtain ⟨input, rest, h1, _⟩ := accepted_scan _ n hacc
    rw [hs] at h1
    cases h1
  | ok input =>
    cases hu : scanUint input with
    | error err =>
      right
      refine ⟨?_, err, by simp only [hu]⟩
      intro n hacc
      obtain ⟨input1, rest, h1, h2⟩ := accepted_scan _ n hacc
      rw [hs] at h1
      cases h1
      rw [hu] at h2
      cases h2
    | ok res =>
      obtain ⟨i, rest⟩ := res
      left
      refine ⟨i, ?_, by simp only [hu]⟩
      obtain ⟨ws, hl, hws, hhead⟩ := skipSpace_sound _ input hs
      obtain ⟨ds, hin, hne, hds, hrest, hval, hn⟩ := scanUint_sound input i rest hhead hu
      exact ⟨ws, ds, rest, by rw [hl, hin, List.append_assoc], hws, hne, hds, hrest, hval, hn⟩

theorem acceptedAs_unique (l : List Char) (n m : Nat) (hn : AcceptedAs l n)
    (hm : AcceptedAs l m) : n = m := by
  obtain ⟨i1, r1, h1, h2⟩ := accepted_scan l n hn
  obtain ⟨i2, r2, h3, h4⟩ := accepted_scan l m hm
  rw [h1] at h3
  cases h3
  rw [h2] at h4
  cases h4
  rfl

theorem head_dropWhile (p : Char → Bool) (l : List Char) :
    ∀ c, (l.dropWhile p).head? = some c → p c = false := by
  induction l with
  | nil => intro c h; simp at h
  | cons d ds ih =>
    intro c h
    by_cases hd : p d = true
    · rw [List.dropWhile_cons_of_pos hd] at h
      exact ih c h
    · rw [List.dropWhile_cons_of_neg hd] at h
      simp at h
      subst h
      simpa using hd

theorem acceptedAs_iff (l : List Char) (n : Nat) :
    AcceptedAs l n ↔ acceptedValue l = some n := by
  constructor
  · rintro ⟨ws, ds, rest, hl, hws, hne, hds, hrest, hval, hn⟩
    cases ds with
    | nil => exact absurd rfl hne
    | cons d ds1 =>
      have hd := hds d (List.mem_cons_self _ _)
      have hdrop : l.dropWhile (fun c => isSpace c && !(c == '\n')) = d :: ds1 ++ rest := by
        rw [hl, List.append_assoc, List.dropWhile_append_of_pos]
        · simp only [List.cons_append]
          rw [List.dropWhile_cons_of_neg]
          simp [isSpace_of_isDigit d hd]
        · intro c hc
          obtain ⟨h1, h2⟩ := hws c hc
          simp [h1, h2]
      have htake : (d :: ds1 ++ rest).takeWhile Char.isDigit = d :: ds1 := by
        rw [List.takeWhile_append_of_pos hds]
        cases rest with
        | nil => simp
        | cons r rs =>
          have hr := hrest r rfl
          rw [List.takeWhile_cons_of_neg (by simp [hr])]
          simp
      have hn1 : n < 4294967296 := by simpa using hn
      simp only [acceptedValue, hdrop, htake]
      simp [hval, hn1]
  · intro h
    simp only [acceptedValue] at h
    split at h
    · rename_i hc
      simp only [Option.some.injEq] at h
      refine ⟨l.takeWhile (fun c => isSpace c && !(c == '\n')),
        (l.dropWhile (fun c => isSpace c && !(c == '\n'))).takeWhile Char.isDigit,
        (l.dropWhile (fun c => isSpace c && !(c == '\n'))).dropWhile Char.isDigit,
        ?_, ?_, hc.1, ?_, ?_, h, ?_⟩
      · rw [List.append_assoc, List.takeWhile_append_dropWhile,
          List.takeWhile_append_dropWhile]
      · intro c hc1
        have := List.mem_takeWhile_imp hc1
        simpa using this
      · intro c hc1
        exact List.mem_takeWhile_imp hc1
      · exact head_dropWhile _ _
      · rw [← h]; exact hc.2
    · cases h

theorem acceptedValue_none_iff (l : List Char) :
    acceptedValue l = none ↔ ¬ ∃ n, AcceptedAs l n := by
  constructor
  · rintro h ⟨n, hn⟩
    rw [(acceptedAs_iff l n).mp hn] at h
    cases h
  · intro h
    cases hv : acceptedValue l with
    | none => rfl
    | some n => exact absurd ⟨n, (acceptedAs_iff l n).mpr hv⟩ h

theorem retrieveEmailBody_rejected (e : EmersionImap) (net : Network) (id : String)
    (h : ∀ n, ¬ AcceptedAs (id.toList.take hugeWid) n) :
    RetrieveEmailBody e net id
      = (.returned ([], some (.text ("invalid email id: " ++ id))), e, net) := by
  rcases sscanf_cases id with ⟨n, hacc, _⟩ | ⟨_, err, hs⟩
  · exact absurd hacc (h n)
  · simp [RetrieveEmailBody, hs]

theorem retrieveEmailBody_accepted_events (e : EmersionImap) (net : Network) (id : String)
    (n : Nat) (h : AcceptedAs (id.toList.take hugeWid) n) :
    net.events.length < (RetrieveEmailBody e net id).2.2.events.length := by
  rcases sscanf_cases id with ⟨m, _, hs⟩ | ⟨hno, _⟩
  · unfold RetrieveEmailBody
    simp only [hs, Option.isSome_none, Bool.false_eq_true, ne_eq, not_true_eq_false, or_self,
      if_false]
    unfold ensureSession
    cases net.dialTLS (e.host ++ ":993") net.events with
    | error err => simp [Network.record]
    | ok client =>
      simp only
      cases client.authenticate e.mailbox e.mailbox e.password with
      | some err => simp [Network.record]
      | none =>
        simp only
        cases client.selectInbox with
        | some err => simp [Network.record]
        | none =>
          simp only
          cases retrieveMessages (client.fetchUID (UIDSetNum m)) [] <;> simp [Network.record]
  · exact absurd h (hno n)

/-- C4: for every id without a decimal digit (the empty string and "abc"
among them), `RetrieveEmailBody` returns the invalid-identifier error and no
bodies before any session is ensured: the adapter and the network, with its
record of calls, are unchanged. -/
theorem retrieveEmailBody_rejects_no_digit (e : EmersionImap) (net : Network) (id : String)
    (h : ∀ c ∈ id.toList, c.isDigit = false) :
    RetrieveEmailBody e net id
      = (.returned ([], some (.text ("invalid email id: " ++ id))), e, net) := by
  apply retrieveEmailBody_rejected
  intro n hacc
  obtain ⟨ws, ds, rest, hl, _, hne, hds, _⟩ := hacc
  cases ds with
  | nil => exact hne rfl
  | cons d ds1 =>
    have hd := hds d (List.mem_cons_self _ _)
    have hmem : d ∈ id.toList.take hugeWid := by
      rw [hl]
      simp
    have := h d (List.mem_of_mem_take hmem)
    rw [hd] at this
    exact Bool.noConfusion this

/-- Which ids `RetrieveEmailBody` accepts: it rejects an id with the
invalid-identifier error, leaving adapter and network untouched, exactly when
the id (its first `2 ^ 30` runes) is not: optional white space without
newline, then a non-empty run of decimal digits denoting a number below
`2 ^ 32`; what follows the run is ignored. An accepted id is fetched, once
the session is established, under `UIDSetNum` of the number its digit run
denotes: the number itself, or `*` for zero. -/
theorem retrieveEmailBody_accepts_iff (e : EmersionImap) (net : Network) (id : String) :
    (RetrieveEmailBody e net id
        = (.returned ([], some (.text ("invalid email id: " ++ id))), e, net)
      ↔ acceptedValue (id.toList.take hugeWid) = none) ∧
    ∀ (n : Nat) (client : Client), acceptedValue (id.toList.take hugeWid) = some n →
      net.dialTLS (e.host ++ ":993") net.events = .ok client →
      client.authenticate e.mailbox e.mailbox e.password = none →
      client.selectInbox = none →
      (RetrieveEmailBody e net id).2.2.events
          = net.events ++
            [.dial (e.host ++ ":993"),
             .authenticate client.conn e.mailbox e.mailbox e.password,
             .select client.conn "INBOX" true,
             .fetchUID client.conn (UIDSetNum n)] ∧
        (RetrieveEmailBody e net id).1
          = match consumeLiterals (bodySections (client.fetchUID (UIDSetNum n))) [] with
            | .error err => .returned ([], some err)
            | .ok output => .returned (output, none) := by
  refine ⟨⟨?_, ?_⟩, ?_⟩
  · intro heq
    rw [acceptedValue_none_iff]
    rintro ⟨n, hacc⟩
    have hlt := retrieveEmailBody_accepted_events e net id n hacc
    rw [heq] at hlt
    exact Nat.lt_irrefl _ hlt
  · intro h
    rw [acceptedValue_none_iff] at h
    exact retrieveEmailBody_rejected e net id (fun n hn => h ⟨n, hn⟩)
  · intro n client hval hdial hauth hsel
    have hacc := (acceptedAs_iff _ n).mpr hval
    rcases sscanf_cases id with ⟨m, hm, hs⟩ | ⟨hno, _⟩
    · have hmn : m = n := acceptedAs_unique _ m n hm hacc
      subst hmn
      have hid : (Sscanf id).err = none ∧ (Sscanf id).count = 1 := by simp [hs]
      have huid : (Sscanf id).uid = m := by simp [hs]
      have hR := retrieveEmailBody_established e net id client hid hdial hauth hsel
      rw [huid] at hR
      refine ⟨?_, hR⟩
      unfold RetrieveEmailBody
      simp only [hid.1, hid.2, huid, ensureSession_established e net client hdial hauth hsel]
      cases retrieveMessages (client.fetchUID (UIDSetNum m)) [] <;> simp [Network.record]
    · exact absurd hacc (hno n)

/-! ## URI templates -/

theorem matchValue_longest (k : List Char → List Char → Option Captures) (v : List Char) :
    ∀ (st : PctState) (acc rest : List Char) (caps : Captures),
      valueText st v = true →
      (∀ c, rest.head? = some c → isUnreserved c = false ∧ c ≠ '%') →
      k (acc ++ v) rest = some caps →
      matchValue k st acc (v ++ rest) = some caps := by
  induction v with
  | nil =>
    intro st acc rest caps hv hrest hk
    cases st with
    | unit =>
      cases rest with
      | nil => simpa [matchValue] using hk
      | cons c cs =>
        obtain ⟨h1, h2⟩ := hrest c rfl
        simpa [matchValue, h1, h2] using hk
    | pct => simp [valueText] at hv
    | pctHex => simp [valueText] at hv
  | cons c v ih =>
    intro st acc rest caps hv hrest hk
    have hk1 : k (acc ++ [c] ++ v) rest = some caps := by simpa using hk
    cases st with
    | unit =>
      simp only [valueText] at hv
      simp only [List.cons_append, matchValue]
      by_cases hu : isUnreserved c = true
      · simp only [hu, if_true] at hv ⊢
        have e := ih .unit (acc ++ [c]) rest caps hv hrest hk1
        simp only [List.append_eq, e]
      · simp only [hu, Bool.false_eq_true, if_false] at hv ⊢
        by_cases hp : c = '%'
        · simp only [hp, if_true] at hv ⊢
          have e := ih .pct (acc ++ ['%']) rest caps hv hrest (by simpa [hp] using hk1)
          simp only [List.append_eq, e]
        · simp [hp] at hv
    | pct =>
      simp only [valueText, Bool.and_eq_true] at hv
      simp only [List.cons_append, matchValue, hv.1, if_true]
      exact ih .pctHex (acc ++ [c]) rest caps hv.2 hrest hk1
    | pctHex =>
      simp only [valueText, Bool.and_eq_true] at hv
      simp only [List.cons_append, matchValue, hv.1, if_true]
      exact ih .unit (acc ++ [c]) rest caps hv.2 hrest hk1

theorem matchValue_sound (k : List Char → List Char → Option Captures) (input : List Char) :
    ∀ (st : PctState) (acc : List Char) (caps : Captures),
      matchValue k st acc input = some caps →
      ∃ v rest, input = v ++ rest ∧ valueText st v = true ∧ k (acc ++ v) rest = some caps := by
  induction input with
  | nil =>
    intro st acc caps h
    cases st with
    | unit => exact ⟨[], [], rfl, rfl, by simpa [matchValue] using h⟩
    | pct => simp [matchValue] at h
    | pctHex => simp [matchValue] at h
  | cons c cs ih =>
    intro st acc caps h
    cases st with
    | unit =>
      simp only [matchValue] at h
      split at h
      · rename_i caps1 hlonger
        cases h
        by_cases hu : isUnreserved c = true
        · simp only [hu, if_true] at hlonger
          obtain ⟨v, rest, h1, h2, h3⟩ := ih .unit (acc ++ [c]) _ hlonger
          exact ⟨c :: v, rest, by simp [h1], by simp [valueText, hu, h2], by simpa using h3⟩
        · simp only [hu, Bool.false_eq_true, if_false] at hlonger
          by_cases hp : c = '%'
          · subst hp
            simp only [if_true] at hlonger
            obtain ⟨v, rest, h1, h2, h3⟩ := ih .pct (acc ++ ['%']) _ hlonger
            refine ⟨'%' :: v, rest, by simp [h1], ?_, by simpa using h3⟩
            simp only [valueText, hu, Bool.false_eq_true, if_false, if_true, h2]
          · simp [hp] at hlonger
      · exact ⟨[], c :: cs, rfl, rfl, by simpa using h⟩
    | pct =>
      simp only [matchValue] at h
      by_cases hx : isHexDigit c = true
      · simp only [hx, if_true] at h
        obtain ⟨v, rest, h1, h2, h3⟩ := ih .pctHex (acc ++ [c]) _ h
        exact ⟨c :: v, rest, by simp [h1], by simp [valueText, hx, h2], by simpa using h3⟩
      · simp [hx] at h
    | pctHex =>
      simp only [matchValue] at h
      by_cases hx : isHexDigit c = true
      · simp only [hx, if_true] at h
        obtain ⟨v, rest, h1, h2, h3⟩ := ih .unit (acc ++ [c]) _ h
        exact ⟨c :: v, rest, by simp [h1], by simp [valueText, hx, h2], by simpa using h3⟩
      · simp [hx] at h

theorem valueText_excludes (x : Char) (hx1 : isUnreserved x = false) (hx2 : x ≠ '%')
    (hx3 : isHexDigit x = false) (v : List Char) :
    ∀ st : PctState, valueText st v = true → x ∉ v := by
  induction v with
  | nil => intro st _; simp
  | cons d v ih =>
    intro st hv
    have hd : x ≠ d ∧ ∃ st1, valueText st1 v = true := by
      cases st with
      | unit =>
        simp only [valueText] at hv
        by_cases hu : isUnreserved d = true
        · simp only [hu, if_true] at hv
          refine ⟨?_, .unit, hv⟩
          intro h
          rw [← h, hx1] at hu
          exact Bool.noConfusion hu
        · simp only [hu, Bool.false_eq_true, if_false] at hv
          by_cases hp : d = '%'
          · simp only [hp, if_true] at hv
            exact ⟨by rw [hp]; exact hx2, .pct, hv⟩
          · simp [hp] at hv
      | pct =>
        simp only [valueText, Bool.and_eq_true] at hv
        refine ⟨?_, .pctHex, hv.2⟩
        intro h
        rw [← h, hx3] at hv
        exact Bool.noConfusion hv.1
      | pctHex =>
        simp only [valueText, Bool.and_eq_true] at hv
        refine ⟨?_, .unit, hv.2⟩
        intro h
        rw [← h, hx3] at hv
        exact Bool.noConfusion hv.1
    obtain ⟨st1, h1⟩ := hd.2
    simp only [List.mem_cons, not_or]
    exact ⟨hd.1, ih st1 h1⟩

theorem valueText_no_slash (v : List Char) :
    ∀ st : PctState, valueText st v = true → ∀ c ∈ v, c ≠ '/' := by
  intro st hv c hc heq
  rw [heq] at hc
  exact valueText_excludes '/' (by decide) (by decide) (by decide) v st hv hc

theorem matchParts_runes (lits : List Char) (ps : List TemplatePart) (rest : List Char) :
    matchParts (lits.map TemplatePart.rune ++ ps) (lits ++ rest) = matchParts ps rest := by
  induction lits with
  | nil => rfl
  | cons c cs ih => simpa [matchParts] using ih

theorem matchParts_runes_sound (lits : List Char) (ps : List TemplatePart) :
    ∀ (input : List Char) (caps : Captures),
      matchParts (lits.map TemplatePart.rune ++ ps) input = some caps →
      ∃ rest, input = lits ++ rest ∧ matchParts ps rest = some caps := by
  induction lits with
  | nil => intro input caps h; exact ⟨input, rfl, h⟩
  | cons c cs ih =>
    intro input caps h
    cases input with
    | nil => simp [matchParts] at h
    | cons d ds =>
      simp only [List.map_cons, List.cons_append, matchParts] at h
      by_cases hd : d = c
      · simp only [hd, if_true] at h
        obtain ⟨rest, h1, h2⟩ := ih ds caps h
        exact ⟨rest, by simp [hd, h1], h2⟩
      · simp [hd] at h

theorem matchParts_variable (name : String) (ps : List TemplatePart) (v rest : List Char)
    (caps : Captures) (hv : valueText .unit v = true)
    (hrest : ∀ c, rest.head? = some c → isUnreserved c = false ∧ c ≠ '%')
    (h : matchParts ps rest = some caps) :
    matchParts (.variable name :: ps) (v ++ rest) = some ((name, v) :: caps) := by
  simp only [matchParts]
  apply matchValue_longest _ v .unit [] rest _ hv hrest
  simp [h]

theorem matchParts_variable_sound (name : String) (ps : List TemplatePart) (input : List Char)
    (caps : Captures) (h : matchParts (.variable name :: ps) input = some caps) :
    ∃ v rest caps1, input = v ++ rest ∧ valueText .unit v = true ∧
      matchParts ps rest = some caps1 ∧ caps = (name, v) :: caps1 := by
  simp only [matchParts] at h
  obtain ⟨v, rest, h1, h2, h3⟩ := matchValue_sound _ input .unit [] caps h
  simp only [List.nil_append, Option.map_eq_some'] at h3
  obtain ⟨caps1, h4, h5⟩ := h3
  exact ⟨v, rest, caps1, h1, h2, h4, h5.symm⟩

theorem mustNew_head :
    MustNew uriPatternEmailHead = .returned
      { parts := "mcp-imap://".toList.map TemplatePart.rune ++
          TemplatePart.variable "inbox" :: TemplatePart.rune '@' ::
          TemplatePart.variable "host" ::
          ("/email/".toList.map TemplatePart.rune ++ [TemplatePart.variable "email.id"]) } := by
  rfl

theorem mustNew_bodies :
    MustNew uriPatternEmailBodies = .returned
      { parts := "mcp-imap://".toList.map TemplatePart.rune ++
          TemplatePart.variable "inbox" :: TemplatePart.rune '@' ::
          TemplatePart.variable "host" ::
          ("/email/".toList.map TemplatePart.rune ++
            TemplatePart.variable "email.id" :: "/bodies".toList.map TemplatePart.rune) } := by
  rfl

theorem matchParts_head (m h id : List Char) (hm : valueText .unit m = true)
    (hh : valueText .unit h = true) (hid : valueText .unit id = true) :
    matchParts
        ("mcp-imap://".toList.map TemplatePart.rune ++
          TemplatePart.variable "inbox" :: TemplatePart.rune '@' ::
          TemplatePart.variable "host" ::
          ("/email/".toList.map TemplatePart.rune ++ [TemplatePart.variable "email.id"]))
        ("mcp-imap://".toList ++ (m ++ '@' :: (h ++ ("/email/".toList ++ id))))
      = some [("inbox", m), ("host", h), ("email.id", id)] := by
  rw [matchParts_runes]
  have h3 : matchParts [TemplatePart.variable "email.id"] id = some [("email.id", id)] := by
    have := matchParts_variable "email.id" [] id [] [] hid (by simp) rfl
    simpa using this
  have h2 : matchParts
      (TemplatePart.variable "host" ::
        ("/email/".toList.map TemplatePart.rune ++ [TemplatePart.variable "email.id"]))
      (h ++ ("/email/".toList ++ id)) = some [("host", h), ("email.id", id)] := by
    apply matchParts_variable "host" _ h _ _ hh
    · intro c hc
      simp at hc
      subst hc
      exact ⟨by decide, by decide⟩
    · rw [matchParts_runes]
      exact h3
  apply matchParts_variable "inbox" _ m _ _ hm
  · intro c hc
    simp at hc
    subst hc
    exact ⟨by decide, by decide⟩
  · simp only [matchParts, if_true]
    exact h2

theorem matchParts_bodies_sound (input : List Char) (caps : Captures)
    (h : matchParts
        ("mcp-imap://".toList.map TemplatePart.rune ++
          TemplatePart.variable "inbox" :: TemplatePart.rune '@' ::
          TemplatePart.variable "host" ::
          ("/email/".toList.map TemplatePart.rune ++
            TemplatePart.variable "email.id" :: "/bodies".toList.map TemplatePart.rune))
        input = some caps) :
    ∃ m h id, valueText .unit id = true ∧
      input = "mcp-imap://".toList ++ (m ++ '@' :: (h ++ ("/email/".toList ++ (id ++
        "/bodies".toList)))) ∧
      caps = [("inbox", m), ("host", h), ("email.id", id)] := by
  obtain ⟨r1, e1, h1⟩ := matchParts_runes_sound _ _ input caps h
  obtain ⟨m, r2, c2, e2, _, h2, hc2⟩ := matchParts_variable_sound _ _ r1 caps h1
  obtain ⟨r3, e3, h3⟩ := matchParts_runes_sound ['@'] _ r2 c2 h2
  obtain ⟨hst, r4, c4, e4, _, h4, hc4⟩ := matchParts_variable_sound _ _ r3 c2 h3
  obtain ⟨r5, e5, h5⟩ := matchParts_runes_sound _ _ r4 c4 h4
  obtain ⟨id, r6, c6, e6, hid, h6, hc6⟩ := matchParts_variable_sound _ _ r5 c4 h5
  have h6a : matchParts ("/bodies".toList.map TemplatePart.rune ++ []) r6 = some c6 := by
    simpa using h6
  obtain ⟨r7, e7, h7⟩ := matchParts_runes_sound _ [] r6 c6 h6a
  have hr7 : r7 = [] ∧ c6 = [] := by
    cases r7 with
    | nil => simp [matchParts] at h7; exact ⟨rfl, h7⟩
    | cons c cs => simp [matchParts] at h7
  refine ⟨m, hst, id, hid, ?_, ?_⟩
  · rw [e1, e2, e3, e4, e5, e6, e7, hr7.1]
    simp
  · rw [hc2, hc4, hc6, hr7.2]

theorem append_cons_inj (x : Char) (a : List Char) :
    ∀ c b d : List Char, x ∉ a → x ∉ c → a ++ x :: b = c ++ x :: d → a = c ∧ b = d := by
  induction a with
  | nil =>
    intro c b d _ hc h
    cases c with
    | nil => simpa using h
    | cons y c1 =>
      simp only [List.nil_append, List.cons_append, List.cons.injEq] at h
      exact absurd (by rw [h.1]; exact List.mem_cons_self _ _) hc
  | cons z a1 ih =>
    intro c b d ha hc h
    cases c with
    | nil =>
      simp only [List.nil_append, List.cons_append, List.cons.injEq] at h
      exact absurd (by rw [← h.1]; exact List.mem_cons_self _ _) ha
    | cons y c1 =>
      simp only [List.cons_append, List.cons.injEq] at h
      have ha1 : x ∉ a1 := fun hm => ha (List.mem_cons_of_mem _ hm)
      have hc1 : x ∉ c1 := fun hm => hc (List.mem_cons_of_mem _ hm)
      obtain ⟨e1, e2⟩ := ih c1 b d ha1 hc1 h.2
      exact ⟨by rw [h.1, e1], e2⟩

theorem matchParts_head_sound (input : List Char) (caps : Captures)
    (h : matchParts
        ("mcp-imap://".toList.map TemplatePart.rune ++
          TemplatePart.variable "inbox" :: TemplatePart.rune '@' ::
          TemplatePart.variable "host" ::
          ("/email/".toList.map TemplatePart.rune ++ [TemplatePart.variable "email.id"]))
        input = some caps) :
    ∃ m h id, valueText .unit m = true ∧ valueText .unit h = true ∧
      valueText .unit id = true ∧
      input = "mcp-imap://".toList ++ (m ++ '@' :: (h ++ ("/email/".toList ++ id))) ∧
      caps = [("inbox", m), ("host", h), ("email.id", id)] := by
  obtain ⟨r1, e1, h1⟩ := matchParts_runes_sound _ _ input caps h
  obtain ⟨m, r2, c2, e2, hm, h2, hc2⟩ := matchParts_variable_sound _ _ r1 caps h1
  obtain ⟨r3, e3, h3⟩ := matchParts_runes_sound ['@'] _ r2 c2 h2
  obtain ⟨hst, r4, c4, e4, hh, h4, hc4⟩ := matchParts_variable_sound _ _ r3 c2 h3
  obtain ⟨r5, e5, h5⟩ := matchParts_runes_sound _ _ r4 c4 h4
  obtain ⟨id, r6, c6, e6, hid, h6, hc6⟩ := matchParts_variable_sound _ _ r5 c4 h5
  have hr6 : r6 = [] ∧ c6 = [] := by
    cases r6 with
    | nil => simp [matchParts] at h6; exact ⟨rfl, h6⟩
    | cons c cs => simp [matchParts] at h6
  refine ⟨m, hst, id, hm, hh, hid, ?_, ?_⟩
  · rw [e1, e2, e3, e4, e5, e6, hr6.1]
    simp
  · rw [hc2, hc4, hc6, hr6.2]

theorem head_match_value_text (mailbox host id : List Char) (caps : Captures)
    (hid : ∀ c ∈ id, c.isDigit = true)
    (h : matchParts
        ("mcp-imap://".toList.map TemplatePart.rune ++
          TemplatePart.variable "inbox" :: TemplatePart.rune '@' ::
          TemplatePart.variable "host" ::
          ("/email/".toList.map TemplatePart.rune ++ [TemplatePart.variable "email.id"]))
        ("mcp-imap://".toList ++ (mailbox ++ '@' :: (host ++ ("/email/".toList ++ id))))
      = some caps) :
    valueText .unit mailbox = true ∧ valueText .unit host = true := by
  obtain ⟨m, hst, id1, hm, hh, hid1, hin, _⟩ := matchParts_head_sound _ caps h
  have hin1 := List.append_cancel_left hin
  have at_m := valueText_excludes '@' (by decide) (by decide) (by decide) m .unit hm
  have at_h := valueText_excludes '@' (by decide) (by decide) (by decide) hst .unit hh
  have at_i := valueText_excludes '@' (by decide) (by decide) (by decide) id1 .unit hid1
  have sl_h := valueText_excludes '/' (by decide) (by decide) (by decide) hst .unit hh
  have sl_i := valueText_excludes '/' (by decide) (by decide) (by decide) id1 .unit hid1
  have at_id : '@' ∉ id := fun hmem => by
    have := hid _ hmem
    exact absurd this (by decide)
  have sl_id : '/' ∉ id := fun hmem => by
    have := hid _ hmem
    exact absurd this (by decide)
  have hcount := congrArg (List.count '@') hin1
  simp only [List.count_append, List.count_cons, List.count_eq_zero.mpr at_m,
    List.count_eq_zero.mpr at_h, List.count_eq_zero.mpr at_i, List.count_eq_zero.mpr at_id] at hcount
  have c1 : List.count '@' "/email/".toList = 0 := by decide
  simp only [c1, beq_self_eq_true, if_true] at hcount
  have at_mailbox : '@' ∉ mailbox := List.count_eq_zero.mp (by omega)
  obtain ⟨em, erest⟩ := append_cons_inj '@' mailbox m _ _ at_mailbox at_m hin1
  have hcount2 := congrArg (List.count '/') erest
  simp only [List.count_append, List.count_eq_zero.mpr sl_h, List.count_eq_zero.mpr sl_i,
    List.count_eq_zero.mpr sl_id] at hcount2
  have sl_host : '/' ∉ host := List.count_eq_zero.mp (by omega)
  have erest1 : host ++ '/' :: ("email/".toList ++ id) = hst ++ '/' :: ("email/".toList ++ id1) :=
    erest
  obtain ⟨eh, _⟩ := append_cons_inj '/' host hst _ _ sl_host sl_h erest1
  exact ⟨by rw [em]; exact hm, by rw [eh]; exact hh⟩

theorem empty_id_of_empty_segment (x y id : List Char) (hid : ∀ c ∈ id, c ≠ '/')
    (h : x ++ ("/email/".toList ++ "/bodies".toList)
        = y ++ ("/email/".toList ++ (id ++ "/bodies".toList))) :
    id = [] := by
  have h1 : (x ++ "/email/".toList) ++ "/bodies".toList
      = (y ++ ("/email/".toList ++ id)) ++ "/bodies".toList := by
    simpa [List.append_assoc] using h
  have h2 := List.append_cancel_right h1
  rcases List.eq_nil_or_concat id with hnil | ⟨init, last, hcat⟩
  · exact hnil
  · exfalso
    have hlast : last ≠ '/' := hid last (by rw [hcat, List.concat_eq_append]; simp)
    have h3 := congrArg List.getLast? h2
    rw [hcat, List.concat_eq_append] at h3
    have h4 : (y ++ ("/email/".toList ++ (init ++ [last]))).getLast? = some last := by
      rw [← List.append_assoc, ← List.append_assoc, List.getLast?_append]
      simp
    have h5 : (x ++ "/email/".toList).getLast? = some '/' := by
      rw [List.getLast?_append]
      simp
    rw [h4, h5] at h3
    exact hlast (Option.some.inj h3).symm

/-- C7: a bodies request whose identifier has an empty email-id segment
(`mcp-imap://{mailbox}@{host}/email//bodies`, for any mailbox and host), and
a request whose identifier does not match the bodies template, gets an error
and no result, with the client's state as it was: whatever the client's
`RetrieveEmailBody` would do, it is not called. -/
theorem handleClientEmailBody_rejects {σ : Type} (client : IMAPClient σ) (s : σ) :
    (∀ mailbox host : String,
      handleClientEmailBody client
          { URI := "mcp-imap://" ++ mailbox ++ "@" ++ host ++ "/email//bodies" } s
        = (.returned (none, some (.text ("uri " ++
            ("mcp-imap://" ++ mailbox ++ "@" ++ host ++ "/email//bodies") ++
            " does not match template"))), s) ∨
      handleClientEmailBody client
          { URI := "mcp-imap://" ++ mailbox ++ "@" ++ host ++ "/email//bodies" } s
        = (.returned (none, some (.text ("email id not found in uri " ++
            ("mcp-imap://" ++ mailbox ++ "@" ++ host ++ "/email//bodies")))), s)) ∧
    (∀ uri : String, matchEmailID uriPatternEmailBodies uri = none →
      handleClientEmailBody client { URI := uri } s
        = (.returned (none, some (.text ("uri " ++ uri ++ " does not match template"))), s)) := by
  refine ⟨?_, ?_⟩
  · intro mailbox host
    unfold handleClientEmailBody
    rw [mustNew_bodies]
    simp only [Template.Match]
    cases hm : matchParts
        ("mcp-imap://".toList.map TemplatePart.rune ++
          TemplatePart.variable "inbox" :: TemplatePart.rune '@' ::
          TemplatePart.variable "host" ::
          ("/email/".toList.map TemplatePart.rune ++
            TemplatePart.variable "email.id" :: "/bodies".toList.map TemplatePart.rune))
        ("mcp-imap://" ++ mailbox ++ "@" ++ host ++ "/email//bodies").toList with
    | none => left; rfl
    | some caps =>
      right
      obtain ⟨m, h, id, hid, hin, hcaps⟩ := matchParts_bodies_sound _ caps hm
      have hnil : id = [] := by
        apply empty_id_of_empty_segment
            ("mcp-imap://".toList ++ (mailbox.toList ++ '@' :: host.toList))
            ("mcp-imap://".toList ++ (m ++ '@' :: h)) id
            (valueText_no_slash id .unit hid)
        have hl : ("mcp-imap://" ++ mailbox ++ "@" ++ host ++ "/email//bodies").toList
            = "mcp-imap://".toList ++ (mailbox.toList ++ '@' :: host.toList)
                ++ ("/email/".toList ++ "/bodies".toList) := by
          simp
        rw [← hl, hin]
        simp
      subst hnil
      subst hcaps
      have hget : Values.Get
          (List.map (fun cap => (cap.1, pctDecode cap.2))
            [("inbox", m), ("host", h), ("email.id", ([] : List Char))]) "email.id" = "" := by
        rfl
      simp only [Option.map_some', hget, if_true]
  · intro uri hnone
    unfold matchEmailID at hnone
    unfold handleClientEmailBody
    rw [mustNew_bodies] at hnone ⊢
    simp only [Option.map_eq_none'] at hnone
    simp only [hnone]

/-! ## Identifiers produced by listing -/

theorem digit_unreserved (c : Char) (h : c.isDigit = true) :
    isUnreserved c = true ∧ c ≠ '%' ∧ c.toNat < 128 := by
  rw [isDigit_iff] at h
  refine ⟨?_, ?_, by omega⟩
  · simp only [isUnreserved, Bool.or_eq_true, Bool.and_eq_true, decide_eq_true_eq, beq_iff_eq]
    omega
  · intro hc
    rw [hc] at h
    exact absurd h (by decide)

theorem valueText_of_digits (l : List Char) (h : ∀ c ∈ l, c.isDigit = true) :
    valueText .unit l = true := by
  induction l with
  | nil => rfl
  | cons c cs ih =>
    have hc := (digit_unreserved c (h c (List.mem_cons_self _ _))).1
    simp only [valueText, hc, if_true]
    exact ih (fun d hd => h d (List.mem_cons_of_mem _ hd))

theorem utf8EncodeChar_ascii (c : Char) (h : c.toNat < 128) :
    (String.utf8EncodeChar c).map UInt8.toNat = [c.toNat] := by
  have hv : c.toNat = c.val.toNat := rfl
  have h1 : c.val ≤ 127 := by
    rw [UInt32.le_def]
    show c.val.toNat ≤ 127
    omega
  simp only [String.utf8EncodeChar, h1, if_true, List.map_cons, List.map_nil]
  congr 1
  simp [UInt32.toUInt8, Char.toNat, UInt8.toNat, Nat.toUInt8, UInt8.ofNat]
  omega

theorem pctDecodeBytes_ascii (l : List Char) (h : ∀ c ∈ l, c ≠ '%' ∧ c.toNat < 128) :
    pctDecodeBytes l = l.map Char.toNat := by
  induction l with
  | nil => rfl
  | cons c cs ih =>
    obtain ⟨h1, h2⟩ := h c (List.mem_cons_self _ _)
    have ih1 := ih (fun d hd => h d (List.mem_cons_of_mem _ hd))
    unfold pctDecodeBytes
    simp only [h1, if_false, utf8EncodeChar_ascii c h2, List.map_cons, List.singleton_append,
      ih1]

theorem decodeRunesLoop_ascii (bs : List Nat) :
    ∀ n : Nat, bs.length ≤ n → (∀ b ∈ bs, b < 128) →
      decodeRunesLoop n bs = bs.map Char.ofNat := by
  induction bs with
  | nil => intro n _ _; cases n <;> rfl
  | cons b bs ih =>
    intro n hn hb
    cases n with
    | zero => simp at hn
    | succ n =>
      have hb1 : b < 128 := hb b (List.mem_cons_self _ _)
      have hd : decodeRune (b :: bs) = (Char.ofNat b, 1) := by
        simp [decodeRune, hb1]
      simp only [decodeRunesLoop, hd, List.drop_succ_cons, List.drop_zero, List.map_cons]
      rw [ih n (by simpa using hn) (fun d hd => hb d (List.mem_cons_of_mem _ hd))]

theorem pctDecode_digits (l : List Char) (h : ∀ c ∈ l, c.isDigit = true) :
    pctDecode l = String.mk l := by
  have h1 : ∀ c ∈ l, c ≠ '%' ∧ c.toNat < 128 :=
    fun c hc => (digit_unreserved c (h c hc)).2
  unfold pctDecode decodeRunes
  rw [pctDecodeBytes_ascii l h1, decodeRunesLoop_ascii _ _ (le_refl _)]
  · congr 1
    rw [List.map_map]
    have : (Char.ofNat ∘ Char.toNat) = id := by
      funext c
      exact Char.ofNat_toNat c
    rw [this, List.map_id]
  · intro b hb
    obtain ⟨c, hc, rfl⟩ := List.mem_map.mp hb
    exact (h1 c hc).2

theorem digitChar_isDigit (d : Nat) (h : d < 10) : (Nat.digitChar d).isDigit = true := by
  interval_cases d <;> rfl

theorem toDigitsCore_digits (fuel : Nat) :
    ∀ (n : Nat) (ds : List Char), (∀ c ∈ ds, c.isDigit = true) →
      ∀ c ∈ Nat.toDigitsCore 10 fuel n ds, c.isDigit = true := by
  induction fuel with
  | zero => intro n ds h; simpa [Nat.toDigitsCore] using h
  | succ fuel ih =>
    intro n ds h
    have hd : (Nat.digitChar (n % 10)).isDigit = true :=
      digitChar_isDigit _ (Nat.mod_lt _ (by decide))
    have hcons : ∀ c ∈ Nat.digitChar (n % 10) :: ds, c.isDigit = true := by
      intro c hc
      rcases List.mem_cons.mp hc with hc | hc
      · rw [hc]; exact hd
      · exact h c hc
    simp only [Nat.toDigitsCore]
    split
    · exact hcons
    · exact ih _ _ hcons

theorem toDigitsCore_ne_nil (fuel : Nat) :
    ∀ (n : Nat) (ds : List Char), ds ≠ [] → Nat.toDigitsCore 10 fuel n ds ≠ [] := by
  induction fuel with
  | zero => intro n ds h; simpa [Nat.toDigitsCore] using h
  | succ fuel ih =>
    intro n ds _
    simp only [Nat.toDigitsCore]
    split
    · simp
    · exact ih _ _ (by simp)

theorem repr_digits (n : Nat) : ∀ c ∈ (Nat.repr n).toList, c.isDigit = true :=
  toDigitsCore_digits (n + 1) n [] (by simp)

theorem repr_ne_empty (n : Nat) : Nat.repr n ≠ "" := by
  intro h
  have h1 : (Nat.repr n).toList = [] := by rw [h]; rfl
  have h2 : Nat.toDigitsCore 10 (n + 1) n [] ≠ [] := by
    simp only [Nat.toDigitsCore]
    split
    · simp
    · exact toDigitsCore_ne_nil _ _ _ (by simp)
  exact h2 h1

/-- Where the identifiers of listing resolve: for every summary that listing
emits, the content item of `handleClientRoot` is addressed at
`mcp-imap://{mailbox}@{host}/email/{ID}` and the ID is not empty. When the
mailbox and the host are made of unreserved characters and percent-encoded
triplets, that identifier matches the single-email template and the
extracted `email.id` is the summary's ID; for every other mailbox or host it
does not match the template. -/
theorem listing_uri_round_trip {σ : Type} (client : IMAPClient σ) (s : σ)
    (jsonMarshal : EmailSummary → Except GoError String) (seqNum : Nat) (env : Envelope)
    (summary : EmailSummary) (body : String)
    (hs : summaryOfEnvelope seqNum env = .returned summary)
    (hbody : jsonMarshal summary = .ok body) :
    rootLoopBody client s jsonMarshal summary none ([], none)
      = (([{ URI := "mcp-imap://" ++ client.Mailbox s ++ "@" ++ client.Host s ++ "/email/" ++
               summary.ID,
             MIMEType := mimeTypeJSON, Text := body, Blob := [] }], none), true) ∧
    summary.ID ≠ "" ∧
    (valueText .unit (client.Mailbox s).toList = true ∧
        valueText .unit (client.Host s).toList = true →
      matchEmailID uriPatternEmailHead
          ("mcp-imap://" ++ client.Mailbox s ++ "@" ++ client.Host s ++ "/email/" ++ summary.ID)
        = some summary.ID) ∧
    (¬ (valueText .unit (client.Mailbox s).toList = true ∧
        valueText .unit (client.Host s).toList = true) →
      matchEmailID uriPatternEmailHead
          ("mcp-imap://" ++ client.Mailbox s ++ "@" ++ client.Host s ++ "/email/" ++ summary.ID)
        = none) := by
  have hID : summary.ID = Nat.repr seqNum := by
    unfold summaryOfEnvelope at hs
    cases hf : env.From with
    | nil => simp [hf] at hs
    | cons first rest =>
      simp only [hf, Outcome.returned.injEq] at hs
      rw [← hs]
  have hdig : ∀ c ∈ summary.ID.toList, c.isDigit = true := by
    rw [hID]
    exact repr_digits seqNum
  have hl : ("mcp-imap://" ++ client.Mailbox s ++ "@" ++ client.Host s ++ "/email/" ++
        summary.ID).toList
      = "mcp-imap://".toList ++ ((client.Mailbox s).toList ++ '@' ::
          ((client.Host s).toList ++ ("/email/".toList ++ summary.ID.toList))) := by
    simp
  refine ⟨by simp [rootLoopBody, hbody], by rw [hID]; exact repr_ne_empty seqNum, ?_, ?_⟩
  · rintro ⟨hm, hh⟩
    unfold matchEmailID
    rw [mustNew_head]
    simp only [Template.Match]
    rw [hl, matchParts_head _ _ _ hm hh (valueText_of_digits _ hdig)]
    have hget : ∀ a b c : String,
        Values.Get [("inbox", a), ("host", b), ("email.id", c)] "email.id" = c := by
      intro a b c
      rfl
    simp only [Option.map_some', List.map_cons, List.map_nil, hget, pctDecode_digits _ hdig]
    rfl
  · intro hnot
    unfold matchEmailID
    rw [mustNew_head]
    simp only [Template.Match]
    rw [hl]
    cases hmatch : matchParts
        ("mcp-imap://".toList.map TemplatePart.rune ++
          TemplatePart.variable "inbox" :: TemplatePart.rune '@' ::
          TemplatePart.variable "host" ::
          ("/email/".toList.map TemplatePart.rune ++ [TemplatePart.variable "email.id"]))
        ("mcp-imap://".toList ++ ((client.Mailbox s).toList ++ '@' ::
          ((client.Host s).toList ++ ("/email/".toList ++ summary.ID.toList)))) with
    | none => rfl
    | some caps => exact absurd (head_match_value_text _ _ _ caps hdig hmatch) hnot

/-! ## Behaviour that differs from the specification -/

/-- C2: `handleClientRoot` formats the mailbox and the host into the
identifier as they are, without escaping, so the identifier matches the
single-email template only for a mailbox and a host made of unreserved
characters and percent-encoded triplets. With the mailbox `bob@x.org`, the
item listing emits for the summary of message 1 is addressed at
`mcp-imap://bob@x.org@imap.example.com/email/1`; that identifier does not
match the template, and `handleClientEmail` answers it with an error and
without asking the client. -/
theorem listing_uri_mailbox_with_at_sign :
    (∀ (mailbox host : String) (seqNum : Nat) (env : Envelope) (summary : EmailSummary),
      summaryOfEnvelope seqNum env = .returned summary →
      ¬ (valueText .unit mailbox.toList = true ∧ valueText .unit host.toList = true) →
      matchEmailID uriPatternEmailHead
          ("mcp-imap://" ++ mailbox ++ "@" ++ host ++ "/email/" ++ summary.ID)
        = none) ∧
    summaryOfEnvelope 1
        { Date := ⟨0⟩, Subject := "hello",
          From := [{ Name := "Alice", Mailbox := "alice", Host := "a.org" }] }
      = .returned { ID := "1", Subject := "hello", Received := ⟨0⟩, From := ["Alice"] } ∧
    rootLoopBody emersionClient
        (NewEmersionImap "bob@x.org" "imap.example.com" "secret", sampleNetwork) sampleMarshal
        { ID := "1", Subject := "hello", Received := ⟨0⟩, From := ["Alice"] } none ([], none)
      = (([{ URI := "mcp-imap://bob@x.org@imap.example.com/email/1",
             MIMEType := "application/json", Text := "hello", Blob := [] }], none), true) ∧
    matchEmailID uriPatternEmailHead "mcp-imap://bob@x.org@imap.example.com/email/1" = none ∧
    handleClientEmail emersionClient (fun _ => .ok "")
        { URI := "mcp-imap://bob@x.org@imap.example.com/email/1" }
        (NewEmersionImap "bob@x.org" "imap.example.com" "secret", sampleNetwork)
      = (.returned (none, some (.text
          "uri mcp-imap://bob@x.org@imap.example.com/email/1 does not match template")),
          (NewEmersionImap "bob@x.org" "imap.example.com" "secret", sampleNetwork)) := by
  refine ⟨?_, rfl, rfl, rfl, rfl⟩
  intro mailbox host seqNum env summary hs hnot
  exact (listing_uri_round_trip
    { Mailbox := fun _ => mailbox, Host := fun _ => host,
      ListEmails := fun s => (.panicked "", s),
      RetrieveEmailHead := fun _ s => (.panicked "", s),
      RetrieveEmailBody := fun _ s => (.panicked "", s) }
    () sampleMarshal seqNum env summary summary.Subject hs rfl).2.2.2 hnot

/-- C5: the validation of `RetrieveEmailBody` is `Sscanf` with the verb
`%d`, which skips leading space and does not look at what follows the
number: an id is rejected exactly when it has no accepted value. The ids
`12abc` and ` 12` are not wholly decimal integers, yet the session is
established and the message with unique identifier 12 is fetched and
returned. The id `0` is accepted and fetched as `*`: the last message of the
mailbox is returned. -/
theorem retrieveEmailBody_accepts_trailing_text :
    (∀ (e : EmersionImap) (net : Network) (id : String),
      RetrieveEmailBody e net id
          = (.returned ([], some (.text ("invalid email id: " ++ id))), e, net)
        ↔ acceptedValue (id.toList.take hugeWid) = none) ∧
    "12abc".toList.all Char.isDigit = false ∧
    (RetrieveEmailBody sampleAdapter sampleNetwork "12abc").2.2.events
      = [.dial "imap.example.com:993", .authenticate 0 "bob" "bob" "secret",
         .select 0 "INBOX" true, .fetchUID 0 (.uid 12)] ∧
    (RetrieveEmailBody sampleAdapter sampleNetwork "12abc").1
      = .returned
          ([{ MimeType := "text/plain", Data := [104, 105] },
            { MimeType := "text/html", Data := [60, 112, 62] }], none) ∧
    " 12".toList.all Char.isDigit = false ∧
    (RetrieveEmailBody sampleAdapter sampleNetwork " 12").2.2.events
      = [.dial "imap.example.com:993", .authenticate 0 "bob" "bob" "secret",
         .select 0 "INBOX" true, .fetchUID 0 (.uid 12)] ∧
    (RetrieveEmailBody sampleAdapter sampleNetwork "0").2.2.events
      = [.dial "imap.example.com:993", .authenticate 0 "bob" "bob" "secret",
         .select 0 "INBOX" true, .fetchUID 0 .star] ∧
    (RetrieveEmailBody sampleAdapter sampleNetwork "0").1
      = .returned ([{ MimeType := "text/plain", Data := [108, 97, 115, 116] }], none) := by
  refine ⟨?_, by decide, rfl, rfl, by decide, rfl, rfl, rfl⟩
  intro e net id
  exact (retrieveEmailBody_accepts_iff e net id).1

theorem dialCount_append (l1 l2 : List NetEvent) :
    dialCount (l1 ++ l2) = dialCount l1 + dialCount l2 := by
  induction l1 with
  | nil => simp [dialCount]
  | cons ev rest ih =>
    cases ev <;> simp [dialCount, ih]
    omega

/-- C3: `ensureSession` has no check for an established session: whatever
the session, it dials, so every call adds one dial to the record. After a
first body retrieval the sample adapter holds connection 0; the second
retrieval dials again, so that two dials are recorded, and replaces the
session by the new connection 4. -/
theorem ensureSession_dials_again :
    (∀ (e : EmersionImap) (net : Network),
      dialCount (ensureSession e net).2.2.events = dialCount net.events + 1) ∧
    sampleAfterFirst.1.session.map Client.conn = some 0 ∧
    dialCount sampleAfterFirst.2.events = 1 ∧
    (ensureSession sampleAfterFirst.1 sampleAfterFirst.2).2.2.events
      = sampleAfterFirst.2.events ++
          [.dial "imap.example.com:993", .authenticate 4 "bob" "bob" "secret",
           .select 4 "INBOX" true] ∧
    (ensureSession sampleAfterFirst.1 sampleAfterFirst.2).2.1.session.map Client.conn
      = some 4 ∧
    dialCount
        (RetrieveEmailBody sampleAfterFirst.1 sampleAfterFirst.2 "7").2.2.events = 2 := by
  refine ⟨?_, rfl, rfl, rfl, rfl, rfl⟩
  intro e net
  unfold ensureSession
  cases net.dialTLS (e.host ++ ":993") net.events with
  | error err => simp [Network.record, dialCount_append, dialCount]
  | ok client =>
    simp only
    cases client.authenticate e.mailbox e.mailbox e.password with
    | some err => simp [Network.record, dialCount_append, dialCount]
    | none =>
      simp only
      cases client.selectInbox <;> simp [Network.record, dialCount_append, dialCount]

/-- C10: an envelope item without sender makes the sequence of `ListEmails`
panic at `packet.Envelope.From[0]`: no pair is yielded for that message and
the messages after it are not reached. On the sample fetch response, whose
second message has no sender, the sequence panics after the first message,
and `handleClientRoot` panics with it. -/
theorem listEmails_panics_on_empty_from :
    (∀ (σ : Type) (yield : EmailSummary → Option GoError → σ → σ × Bool) (seqNum : Nat)
        (env : Envelope) (items : List FetchItemData) (msgs : List FetchMessageData) (s : σ),
      env.From = [] →
      listMessages σ yield ({ SeqNum := seqNum, items := .envelope env :: items } :: msgs) s
        = .panicked "runtime error: index out of range [0] with length 0") ∧
    listMessages (List EmailSummary) (fun email _ seen => (seen ++ [email], true))
        ((sampleClient 0).fetchSeq [1, 2]) []
      = .panicked "runtime error: index out of range [0] with length 0" ∧
    (handleClientRoot emersionClient sampleMarshal { URI := "mcp-imap://bob@imap.example.com/" }
        (sampleAdapter, sampleNetwork)).1
      = .panicked "runtime error: index out of range [0] with length 0" := by
  refine ⟨?_, rfl, rfl⟩
  intro σ yield seqNum env items msgs s hfrom
  simp [listMessages, listItems, summaryOfEnvelope, hfrom]

/-! ## Instances at the sample inputs -/

/-- The listing of the sample pairs: two items, for the first and the third
pair, and a non-nil aggregate error. -/
theorem handleClientRoot_partial_listing_witness :
    sampleListingClient.ListEmails 0 = (.returned (.sequence (Seq2.ofList samplePairs)), 0) ∧
    ∃ problem,
      handleClientRoot sampleListingClient sampleMarshal
          { URI := "mcp-imap://bob@imap.example.com/" } 0
        = (.returned
            (some { Contents :=
              [{ URI := "mcp-imap://bob@imap.example.com/email/1",
                 MIMEType := "application/json", Text := "a", Blob := [] },
               { URI := "mcp-imap://bob@imap.example.com/email/3",
                 MIMEType := "application/json", Text := "c", Blob := [] }] }, problem), 0) ∧
      problem.isSome = true := by
  refine ⟨rfl, ?_⟩
  obtain ⟨problem, h1, h2⟩ :=
    (handleClientRoot_partial_listing sampleListingClient sampleMarshal
      { URI := "mcp-imap://bob@imap.example.com/" } 0 0 samplePairs rfl).1
  exact ⟨problem, h1, h2.mpr (by decide)⟩

/-- The identifier of message 1 of the mailbox `bob` round-trips on the host
`imap.example.com` and matches nothing on the host `imap/example`. -/
theorem listing_uri_round_trip_witness :
    summaryOfEnvelope 1
        { Date := ⟨0⟩, Subject := "hello",
          From := [{ Name := "Alice", Mailbox := "alice", Host := "a.org" }] }
      = .returned { ID := "1", Subject := "hello", Received := ⟨0⟩, From := ["Alice"] } ∧
    sampleMarshal { ID := "1", Subject := "hello", Received := ⟨0⟩, From := ["Alice"] }
      = .ok "hello" ∧
    matchEmailID uriPatternEmailHead
        ("mcp-imap://" ++ "bob" ++ "@" ++ "imap.example.com" ++ "/email/" ++ "1")
      = some "1" ∧
    matchEmailID uriPatternEmailHead
        ("mcp-imap://" ++ "bob" ++ "@" ++ "imap/example" ++ "/email/" ++ "1")
      = none :=
  ⟨rfl, rfl,
    (listing_uri_round_trip emersionClient (sampleAdapter, sampleNetwork) sampleMarshal 1
      { Date := ⟨0⟩, Subject := "hello",
        From := [{ Name := "Alice", Mailbox := "alice", Host := "a.org" }] }
      { ID := "1", Subject := "hello", Received := ⟨0⟩, From := ["Alice"] } "hello"
      rfl rfl).2.2.1 ⟨by decide, by decide⟩,
    (listing_uri_round_trip emersionClient
      (NewEmersionImap "bob" "imap/example" "secret", sampleNetwork) sampleMarshal 1
      { Date := ⟨0⟩, Subject := "hello",
        From := [{ Name := "Alice", Mailbox := "alice", Host := "a.org" }] }
      { ID := "1", Subject := "hello", Received := ⟨0⟩, From := ["Alice"] } "hello"
      rfl rfl).2.2.2 (by decide)⟩

/-- The ids `abc` and the empty string are rejected before any network
call. -/
theorem retrieveEmailBody_rejects_no_digit_witness :
    (∀ c ∈ "abc".toList, c.isDigit = false) ∧
    RetrieveEmailBody sampleAdapter sampleNetwork "abc"
      = (.returned ([], some (.text ("invalid email id: " ++ "abc"))),
          sampleAdapter, sampleNetwork) ∧
    RetrieveEmailBody sampleAdapter sampleNetwork ""
      = (.returned ([], some (.text ("invalid email id: " ++ ""))),
          sampleAdapter, sampleNetwork) :=
  ⟨by decide,
    retrieveEmailBody_rejects_no_digit sampleAdapter sampleNetwork "abc" (by decide),
    retrieveEmailBody_rejects_no_digit sampleAdapter sampleNetwork "" (by decide)⟩

/-- The id ` 12abc` is accepted and fetched under 12; `-1`, `4294967296` and
an id that starts with a newline are not accepted. -/
theorem retrieveEmailBody_accepts_iff_witness :
    acceptedValue (" 12abc".toList.take hugeWid) = some 12 ∧
    (RetrieveEmailBody sampleAdapter sampleNetwork " 12abc").2.2.events
      = sampleNetwork.events ++
          [.dial (sampleAdapter.host ++ ":993"),
           .authenticate (sampleClient 0).conn sampleAdapter.mailbox sampleAdapter.mailbox
             sampleAdapter.password,
           .select (sampleClient 0).conn "INBOX" true,
           .fetchUID (sampleClient 0).conn (.uid 12)] ∧
    acceptedValue ("-1".toList.take hugeWid) = none ∧
    acceptedValue ("4294967296".toList.take hugeWid) = none ∧
    acceptedValue ("\n12".toList.take hugeWid) = none :=
  ⟨by decide,
    ((retrieveEmailBody_accepts_iff sampleAdapter sampleNetwork " 12abc").2 12 (sampleClient 0)
      (by decide) rfl rfl rfl).1,
    (retrieveEmailBody_accepts_iff sampleAdapter sampleNetwork "-1").1.mp rfl,
    (retrieveEmailBody_accepts_iff sampleAdapter sampleNetwork "4294967296").1.mp rfl,
    (retrieveEmailBody_accepts_iff sampleAdapter sampleNetwork "\n12").1.mp rfl⟩

/-- A message of a text part, an attachment with an unreadable payload and
an HTML part, consumed after one earlier body. -/
theorem consumeEmail_inline_parts_witness :
    (∀ p ∈ [({ Header := .inline (.ok "text/plain"), Body := .ok [104, 105] } : Part),
            { Header := .attachment, Body := .error .eof },
            { Header := .inline (.ok "text/html"), Body := .ok [60, 112, 62] }],
        partReadable p = true) ∧
    consumeEmail [{ MimeType := "image/png", Data := [1] }]
        { createReader := .ok
            [.ok { Header := .inline (.ok "text/plain"), Body := .ok [104, 105] },
             .ok { Header := .attachment, Body := .error .eof },
             .ok { Header := .inline (.ok "text/html"), Body := .ok [60, 112, 62] }] }
      = ([{ MimeType := "image/png", Data := [1] },
          { MimeType := "text/plain", Data := [104, 105] },
          { MimeType := "text/html", Data := [60, 112, 62] }], none) := by
  have hparts : ∀ p ∈ [({ Header := .inline (.ok "text/plain"), Body := .ok [104, 105] } : Part),
            { Header := .attachment, Body := .error .eof },
            { Header := .inline (.ok "text/html"), Body := .ok [60, 112, 62] }],
        partReadable p = true := by
    simp [partReadable]
  exact ⟨hparts,
    (consumeEmail_inline_parts [{ MimeType := "image/png", Data := [1] }] _ hparts).1⟩

/-- A client that counts the calls of `RetrieveEmailBody`: no call for an
identifier that does not match or has an empty email-id segment, one call
for a well-formed identifier. -/
theorem handleClientEmailBody_rejects_witness :
    matchEmailID uriPatternEmailBodies "mcp-imap://bob@imap.example.com/email/42" = none ∧
    handleClientEmailBody sampleListingClient
        { URI := "mcp-imap://bob@imap.example.com/email/42" } 0
      = (.returned (none, some (.text ("uri " ++ "mcp-imap://bob@imap.example.com/email/42" ++
          " does not match template"))), 0) ∧
    handleClientEmailBody sampleListingClient
        { URI := "mcp-imap://bob@imap.example.com/email//bodies" } 0
      = (.returned (none, some (.text
          "email id not found in uri mcp-imap://bob@imap.example.com/email//bodies")), 0) ∧
    (handleClientEmailBody sampleListingClient
        { URI := "mcp-imap://bob@imap.example.com/email/42/bodies" } 0).2 = 1 :=
  ⟨rfl, (handleClientEmailBody_rejects sampleListingClient 0).2 _ rfl, rfl, rfl⟩

/-- The message under unique identifier 7 gives its two inline bodies; the
message under 8, whose second literal is unparsable, gives the error and
nothing else. -/
theorem retrieveEmailBody_all_or_nothing_witness :
    ((Sscanf "7").err = none ∧ (Sscanf "7").count = 1) ∧
    matchEmailID uriPatternEmailBodies "mcp-imap://bob@imap.example.com/email/7/bodies"
      = some "7" ∧
    (RetrieveEmailBody sampleAdapter sampleNetwork "7").1
      = .returned
          ([{ MimeType := "text/plain", Data := [104, 105] },
            { MimeType := "text/html", Data := [60, 112, 62] }], none) ∧
    (handleClientEmailBody emersionClient
        { URI := "mcp-imap://bob@imap.example.com/email/7/bodies" }
        (sampleAdapter, sampleNetwork)).1
      = .returned
          (some { Contents :=
            [{ URI := "", MIMEType := "text/plain", Text := "", Blob := [104, 105] },
             { URI := "", MIMEType := "text/html", Text := "", Blob := [60, 112, 62] }] },
            none) ∧
    (RetrieveEmailBody sampleAdapter sampleNetwork "8").1
      = .returned ([], some (.text "malformed message")) ∧
    (handleClientEmailBody emersionClient
        { URI := "mcp-imap://bob@imap.example.com/email/8/bodies" }
        (sampleAdapter, sampleNetwork)).1
      = .returned (none, some (.text "malformed message")) := by
  have h7 := (retrieveEmailBody_all_or_nothing sampleAdapter sampleNetwork "7"
    "mcp-imap://bob@imap.example.com/email/7/bodies" (sampleClient 0)
    ⟨rfl, rfl⟩ rfl rfl rfl rfl).2
      (by
        intro l hl
        have hl1 : l = sampleLiteral := by simpa [bodySections, sampleClient] using hl
        subst hl1
        exact ⟨_, rfl⟩)
  have h8 := (retrieveEmailBody_all_or_nothing sampleAdapter sampleNetwork "8"
    "mcp-imap://bob@imap.example.com/email/8/bodies" (sampleClient 0)
    ⟨rfl, rfl⟩ rfl rfl rfl rfl).1 [sampleLiteral] brokenLiteral [] (.text "malformed message")
      rfl
      (by
        intro l hl
        have hl1 : l = sampleLiteral := by simpa using hl
        subst hl1
        exact ⟨_, rfl⟩)
      rfl
  exact ⟨⟨rfl, rfl⟩, rfl, h7.1, h7.2, h8.1, h8.2⟩

end McpImap
